import Mathlib

/-!
# Verification of the mygengo-python request pipeline

A shallow embedding of `mygengo/mygengo.py` and `mygengo/mockdb.py`
(the official Python client for the Gengo translation API, v1.3.3),
together with proofs about the request-construction and authentication
pipeline.

Modelling conventions:
* Python dictionaries are association lists `List (String × α)` with
  unique keys (uniqueness is assumed as a `Nodup` hypothesis where it
  matters); `dictLookup`/`dictSet`/`dictPop` mirror `d[k]`, `d[k] = v`
  and `d.pop(k)`.
* Python JSON values are the inductive type `Json`; the standard-library
  collaborators `json.dumps(..., separators=(',',':'))` and `json.loads`
  are modelled by `dumps` and `parseJson` (the parser covers the
  whitespace-free JSON that `dumps` emits, which is what the round-trip
  property needs).
* `hmac.new(key, msg, sha1).hexdigest()` is modelled by a full
  executable SHA-1/HMAC implementation over byte lists.
* The regular-expression substitution of `\x7b\x7bname\x7d\x7d` mustaches
  (`re.sub` with a popping callback) is modelled by the scanner `reSub`.
* Machine-level effects are made explicit: the HTTP transport is a
  function argument `HttpRequest → Json`, the clock is a `ts : Nat`
  argument, raised exceptions are an explicit `PyErr` error value, and
  `invoke` returns the list of issued requests plus printed debug lines
  so that "no request was sent" is a statement about the result.
-/

set_option maxHeartbeats 1000000
set_option maxRecDepth 100000

namespace MyGengo

/-! ## Python dictionaries as association lists -/

/-- `d[k]` as an option: the first binding of key `k`. -/
def dictLookup {α : Type} (d : List (String × α)) (k : String) : Option α :=
  match d with
  | [] => none
  | (k', v) :: rest => if k' = k then some v else dictLookup rest k

/-- Remove the first binding of key `k` (the removal part of `d.pop(k)`). -/
def dictErase {α : Type} (d : List (String × α)) (k : String) : List (String × α) :=
  match d with
  | [] => []
  | (k', v) :: rest => if k' = k then rest else (k', v) :: dictErase rest k

/-- `d.pop(k)`: the value (if any) together with the dictionary without `k`. -/
def dictPop {α : Type} (d : List (String × α)) (k : String) :
    Option α × List (String × α) :=
  (dictLookup d k, dictErase d k)

/-- `d[k] = v`: update the first binding of `k` in place, else append. -/
def dictSet {α : Type} (d : List (String × α)) (k : String) (v : α) :
    List (String × α) :=
  match d with
  | [] => [(k, v)]
  | (k', v') :: rest => if k' = k then (k, v) :: rest else (k', v') :: dictSet rest k v

/-- Erase a list of keys, left to right. -/
def dictEraseAll {α : Type} (ks : List String) (d : List (String × α)) :
    List (String × α) :=
  match ks with
  | [] => d
  | k :: rest => dictEraseAll rest (dictErase d k)

/-- The keys of a dictionary. -/
def dictKeys {α : Type} (d : List (String × α)) : List String := d.map Prod.fst

/-! ## Decimal / hexadecimal rendering -/

/-- Hex digit `0..15` as a lowercase character (as Python's `%x` and
`hexdigest` produce). -/
def hexDigitLower (n : Nat) : Char :=
  if n < 10 then Char.ofNat (48 + n) else Char.ofNat (87 + n)

/-- Hex digit `0..15` as an uppercase character (as Python's `%02X` in
`urllib.quote` produces). -/
def hexDigitUpper (n : Nat) : Char :=
  if n < 10 then Char.ofNat (48 + n) else Char.ofNat (55 + n)

/-- Decimal digits of `n`, most significant first, for `n > 0`; fuelled
structural recursion (`fuel ≥ n` suffices). -/
def natDigitsAux : Nat → Nat → List Char
  | 0, _ => []
  | fuel + 1, n =>
    if n = 0 then [] else natDigitsAux fuel (n / 10) ++ [Char.ofNat (48 + n % 10)]

/-- Decimal rendering of a natural number (Python `str(n)` for `n ≥ 0`). -/
def natRepr (n : Nat) : String :=
  if n = 0 then "0" else String.mk (natDigitsAux n n)

/-- Decimal rendering of an integer (Python `str`/`repr` of an `int`). -/
def intRepr (i : Int) : String :=
  if i < 0 then "-" ++ natRepr i.natAbs else natRepr i.natAbs

/-! ## JSON values and the compact encoder

The JSON codec is the standard-library collaborator (`json.dumps` with
`separators=(',', ':')`, and `json.loads`).  Numbers are modelled as
integers; floats are outside the scope of the claims. -/

inductive Json where
  | null : Json
  | bool (b : Bool) : Json
  | num (n : Int) : Json
  | str (s : String) : Json
  | arr (elems : List Json) : Json
  | obj (fields : List (String × Json)) : Json

/-- Left brace character (written numerically to keep it out of string
literals). -/
def lbrace : Char := Char.ofNat 123

/-- Right brace character. -/
def rbrace : Char := Char.ofNat 125

/-- JSON escaping of a single character, as `json.dumps` performs it for
the characters that must be escaped;  other characters are emitted
literally. -/
def jsonEscapeChar (c : Char) : List Char :=
  if c = Char.ofNat 34 then [Char.ofNat 92, Char.ofNat 34]
  else if c = Char.ofNat 92 then [Char.ofNat 92, Char.ofNat 92]
  else if c = Char.ofNat 8 then [Char.ofNat 92, 'b']
  else if c = Char.ofNat 12 then [Char.ofNat 92, 'f']
  else if c = Char.ofNat 10 then [Char.ofNat 92, 'n']
  else if c = Char.ofNat 13 then [Char.ofNat 92, 'r']
  else if c = Char.ofNat 9 then [Char.ofNat 92, 't']
  else if c.toNat < 32 then
    [Char.ofNat 92, 'u', '0', '0', hexDigitLower (c.toNat / 16), hexDigitLower (c.toNat % 16)]
  else [c]

/-- Escape every character of a string body. -/
def jsonEscape : List Char → List Char
  | [] => []
  | c :: cs => jsonEscapeChar c ++ jsonEscape cs

mutual

/-- `json.dumps(v, separators=(',', ':'))`: the compact JSON encoding. -/
def dumps : Json → String
  | .null => "null"
  | .bool true => "true"
  | .bool false => "false"
  | .num n => intRepr n
  | .str s => String.mk (Char.ofNat 34 :: jsonEscape s.data ++ [Char.ofNat 34])
  | .arr xs => "[" ++ dumpsArr xs ++ "]"
  | .obj kvs => String.mk [lbrace] ++ dumpsObj kvs ++ String.mk [rbrace]

/-- Comma-separated encoding of array elements. -/
def dumpsArr : List Json → String
  | [] => ""
  | [x] => dumps x
  | x :: y :: xs => dumps x ++ "," ++ dumpsArr (y :: xs)

/-- Comma-separated encoding of object members (`"key":value`). -/
def dumpsObj : List (String × Json) → String
  | [] => ""
  | [kv] => String.mk (Char.ofNat 34 :: jsonEscape kv.1.data ++ [Char.ofNat 34]) ++ ":" ++ dumps kv.2
  | kv :: kv' :: kvs =>
    String.mk (Char.ofNat 34 :: jsonEscape kv.1.data ++ [Char.ofNat 34]) ++ ":" ++ dumps kv.2
      ++ "," ++ dumpsObj (kv' :: kvs)

end

/-! ## JSON parsing (`json.loads` on the compact output of `dumps`)

A fuelled recursive-descent parser for the whitespace-free JSON that the
compact encoder emits; `parseJson` is the decoding collaborator used to
state the encode/decode round trip. -/

/-- Is `c` a decimal digit? -/
def isDigitCh (c : Char) : Bool := 48 ≤ c.toNat && c.toNat ≤ 57

/-- Value of a decimal digit character. -/
def digitVal (c : Char) : Nat := c.toNat - 48

/-- Value of a hexadecimal digit character, if it is one. -/
def hexVal (c : Char) : Option Nat :=
  if 48 ≤ c.toNat && c.toNat ≤ 57 then some (c.toNat - 48)
  else if 97 ≤ c.toNat && c.toNat ≤ 102 then some (c.toNat - 87)
  else if 65 ≤ c.toNat && c.toNat ≤ 70 then some (c.toNat - 55)
  else none

/-- Accumulate a digit run into a natural number, most significant first. -/
def charsToNat (ds : List Char) : Nat := ds.foldl (fun a c => a * 10 + digitVal c) 0

/-- Parse the body of a JSON string up to and including the closing quote,
returning the decoded characters and the remaining input. -/
def parseStrF : Nat → List Char → Option (List Char × List Char)
  | 0, _ => none
  | fuel + 1, cs =>
    match cs with
    | [] => none
    | c :: rest =>
      if c = Char.ofNat 34 then some ([], rest)
      else if c = Char.ofNat 92 then
        match rest with
        | [] => none
        | e :: rest' =>
          if e = Char.ofNat 34 then
            (parseStrF fuel rest').map (fun p => (Char.ofNat 34 :: p.1, p.2))
          else if e = Char.ofNat 92 then
            (parseStrF fuel rest').map (fun p => (Char.ofNat 92 :: p.1, p.2))
          else if e = '/' then (parseStrF fuel rest').map (fun p => ('/' :: p.1, p.2))
          else if e = 'b' then (parseStrF fuel rest').map (fun p => (Char.ofNat 8 :: p.1, p.2))
          else if e = 'f' then (parseStrF fuel rest').map (fun p => (Char.ofNat 12 :: p.1, p.2))
          else if e = 'n' then (parseStrF fuel rest').map (fun p => (Char.ofNat 10 :: p.1, p.2))
          else if e = 'r' then (parseStrF fuel rest').map (fun p => (Char.ofNat 13 :: p.1, p.2))
          else if e = 't' then (parseStrF fuel rest').map (fun p => (Char.ofNat 9 :: p.1, p.2))
          else if e = 'u' then
            match rest' with
            | h1 :: h2 :: h3 :: h4 :: rest'' =>
              match hexVal h1, hexVal h2, hexVal h3, hexVal h4 with
              | some a, some b, some c', some d =>
                (parseStrF fuel rest'').map
                  (fun p => (Char.ofNat (a * 4096 + b * 256 + c' * 16 + d) :: p.1, p.2))
              | _, _, _, _ => none
            | _ => none
          else none
      else if c.toNat < 32 then none
      else (parseStrF fuel rest).map (fun p => (c :: p.1, p.2))

/-- Parse a JSON number (integral, as produced by the encoder). -/
def parseNum : List Char → Option (Json × List Char)
  | [] => none
  | c :: rest =>
    if c = '-' then
      if (rest.takeWhile isDigitCh).isEmpty then none
      else
        some (.num (-(charsToNat (rest.takeWhile isDigitCh) : Int)),
          rest.drop (rest.takeWhile isDigitCh).length)
    else
      if ((c :: rest).takeWhile isDigitCh).isEmpty then none
      else
        some (.num (charsToNat ((c :: rest).takeWhile isDigitCh)),
          (c :: rest).drop ((c :: rest).takeWhile isDigitCh).length)

/-- Match a literal run of characters. -/
def expectChars (pat : List Char) (cs : List Char) : Option (List Char) :=
  if cs.take pat.length = pat then some (cs.drop pat.length) else none

/-- The input does not begin with a decimal digit (so a preceding number
cannot greedily absorb it). -/
def noDigitStart (cs : List Char) : Prop :=
  ∀ c, cs.head? = some c → isDigitCh c = false

mutual

/-- Parse one JSON value. -/
def parseValueF : Nat → List Char → Option (Json × List Char)
  | 0, _ => none
  | fuel + 1, cs =>
    match cs with
    | [] => none
    | c :: rest =>
      if c = 'n' then (expectChars ['u', 'l', 'l'] rest).map (fun r => (.null, r))
      else if c = 't' then (expectChars ['r', 'u', 'e'] rest).map (fun r => (.bool true, r))
      else if c = 'f' then (expectChars ['a', 'l', 's', 'e'] rest).map (fun r => (.bool false, r))
      else if c = Char.ofNat 34 then
        (parseStrF (rest.length + 1) rest).map (fun p => (.str (String.mk p.1), p.2))
      else if c = '[' then
        match rest with
        | [] => none
        | r0 :: tl =>
          if r0 = ']' then some (.arr [], tl)
          else (parseElemsF fuel (r0 :: tl)).map (fun p => (.arr p.1, p.2))
      else if c = lbrace then
        match rest with
        | [] => none
        | r0 :: tl =>
          if r0 = rbrace then some (.obj [], tl)
          else (parseMembersF fuel (r0 :: tl)).map (fun p => (.obj p.1, p.2))
      else parseNum cs

/-- Parse one or more comma-separated array elements, consuming the
closing bracket. -/
def parseElemsF : Nat → List Char → Option (List Json × List Char)
  | 0, _ => none
  | fuel + 1, cs =>
    (parseValueF fuel cs).bind fun p =>
      match p.2 with
      | [] => none
      | s :: r' =>
        if s = ',' then (parseElemsF fuel r').map (fun q => (p.1 :: q.1, q.2))
        else if s = ']' then some ([p.1], r')
        else none

/-- Parse one or more comma-separated object members, consuming the
closing brace. -/
def parseMembersF : Nat → List Char → Option (List (String × Json) × List Char)
  | 0, _ => none
  | fuel + 1, cs =>
    match cs with
    | [] => none
    | q :: rest =>
      if q = Char.ofNat 34 then
        (parseStrF (rest.length + 1) rest).bind fun pk =>
          match pk.2 with
          | [] => none
          | col :: r' =>
            if col = ':' then
              (parseValueF fuel r').bind fun pv =>
                match pv.2 with
                | [] => none
                | s :: r''' =>
                  if s = ',' then
                    (parseMembersF fuel r''').map
                      (fun pm => ((String.mk pk.1, pv.1) :: pm.1, pm.2))
                  else if s = rbrace then some ([(String.mk pk.1, pv.1)], r''')
                  else none
            else none
      else none

end

/-- `json.loads`: parse a complete JSON document. -/
def parseJson (s : String) : Option Json :=
  match parseValueF (s.data.length + 1) s.data with
  | some (j, []) => some j
  | _ => none

mutual

/-- Fuel sufficient for `parseValueF` to parse the encoding of a value. -/
def jsonFuel : Json → Nat
  | .null => 1
  | .bool _ => 1
  | .num _ => 1
  | .str _ => 1
  | .arr [] => 1
  | .arr (x :: xs) => 1 + elemsFuel (x :: xs)
  | .obj [] => 1
  | .obj (kv :: kvs) => 1 + membersFuel (kv :: kvs)

/-- Fuel sufficient for `parseElemsF` on an encoded element list. -/
def elemsFuel : List Json → Nat
  | [] => 1
  | [x] => 1 + jsonFuel x
  | x :: y :: xs => 1 + max (jsonFuel x) (elemsFuel (y :: xs))

/-- Fuel sufficient for `parseMembersF` on an encoded member list. -/
def membersFuel : List (String × Json) → Nat
  | [] => 1
  | [kv] => 1 + jsonFuel kv.2
  | kv :: kv' :: kvs => 1 + max (jsonFuel kv.2) (membersFuel (kv' :: kvs))

end

/-! ## SHA-1 and HMAC-SHA1 (the `hashlib.sha1` / `hmac` collaborators) -/

/-- Truncate to a 32-bit word. -/
def w32 (n : Nat) : Nat := n % 4294967296

/-- Rotate a 32-bit word left by `b` bits. -/
def rotl (b n : Nat) : Nat := w32 (n * 2 ^ b) + n / 2 ^ (32 - b)

/-- The SHA-1 round function for round `t`. -/
def sha1f (t b c d : Nat) : Nat :=
  if t < 20 then (b &&& c) ||| (((4294967295 : Nat) ^^^ b) &&& d)
  else if t < 40 then b ^^^ c ^^^ d
  else if t < 60 then (b &&& c) ||| (b &&& d) ||| (c &&& d)
  else b ^^^ c ^^^ d

/-- The SHA-1 round constant for round `t`. -/
def sha1K (t : Nat) : Nat :=
  if t < 20 then 1518500249
  else if t < 40 then 1859775393
  else if t < 60 then 2400959708
  else 3395469782

/-- Extend the 16 message-schedule words by `k` further words. -/
def extendW : Nat → List Nat → List Nat
  | 0, ws => ws
  | k + 1, ws =>
    let n := ws.length
    extendW k
      (ws ++ [rotl 1 ((ws.getD (n - 3) 0) ^^^ (ws.getD (n - 8) 0) ^^^
        (ws.getD (n - 14) 0) ^^^ (ws.getD (n - 16) 0))])

/-- One SHA-1 round step on the five-word state. -/
def sha1Round (st : Nat × Nat × Nat × Nat × Nat) (twt : Nat × Nat) :
    Nat × Nat × Nat × Nat × Nat :=
  match st, twt with
  | (a, b, c, d, e), (t, wt) =>
    (w32 (rotl 5 a + sha1f t b c d + e + wt + sha1K t), a, rotl 30 b, c, d)

/-- Compress one 16-word block into the running five-word state. -/
def sha1Compress (h : Nat × Nat × Nat × Nat × Nat) (block : List Nat) :
    Nat × Nat × Nat × Nat × Nat :=
  let ws := extendW 64 block
  match h, ws.enum.foldl sha1Round h with
  | (h0, h1, h2, h3, h4), (a, b, c, d, e) =>
    (w32 (h0 + a), w32 (h1 + b), w32 (h2 + c), w32 (h3 + d), w32 (h4 + e))

/-- Big-endian 32-bit words from a byte list. -/
def wordsBE : List Nat → List Nat
  | b0 :: b1 :: b2 :: b3 :: rest =>
    (b0 * 16777216 + b1 * 65536 + b2 * 256 + b3) :: wordsBE rest
  | _ => []

/-- `k` big-endian bytes of `n`. -/
def bytesBE : Nat → Nat → List Nat
  | 0, _ => []
  | k + 1, n => bytesBE k (n / 256) ++ [n % 256]

/-- SHA-1 message padding. -/
def sha1Pad (msg : List Nat) : List Nat :=
  msg ++ [128] ++ List.replicate ((120 - (msg.length + 1) % 64) % 64) 0 ++
    bytesBE 8 (msg.length * 8)

/-- Split a byte list into 64-byte chunks. -/
def chunks64 : Nat → List Nat → List (List Nat)
  | 0, _ => []
  | k + 1, bs => bs.take 64 :: chunks64 k (bs.drop 64)

/-- SHA-1 of a byte list. -/
def sha1 (msg : List Nat) : List Nat :=
  let padded := sha1Pad msg
  let blocks := chunks64 (padded.length / 64) padded
  match blocks.foldl (fun h b => sha1Compress h (wordsBE b))
      (1732584193, 4023233417, 2562383102, 271733878, 3285377520) with
  | (h0, h1, h2, h3, h4) =>
    bytesBE 4 h0 ++ bytesBE 4 h1 ++ bytesBE 4 h2 ++ bytesBE 4 h3 ++ bytesBE 4 h4

/-- HMAC-SHA1 of a message under a key (RFC 2104 with a 64-byte block). -/
def hmacSha1 (key msg : List Nat) : List Nat :=
  let k0 := if key.length > 64 then sha1 key else key
  let k1 := k0 ++ List.replicate (64 - k0.length) 0
  sha1 ((k1.map (fun b => b ^^^ 92)) ++ sha1 ((k1.map (fun b => b ^^^ 54)) ++ msg))

/-- UTF-8 bytes of one character (Python `unicode.encode('utf-8')`). -/
def utf8Char (c : Char) : List Nat :=
  let n := c.toNat
  if n < 128 then [n]
  else if n < 2048 then [192 + n / 64, 128 + n % 64]
  else if n < 65536 then [224 + n / 4096, 128 + n / 64 % 64, 128 + n % 64]
  else [240 + n / 262144, 128 + n / 4096 % 64, 128 + n / 64 % 64, 128 + n % 64]

/-- UTF-8 bytes of a string. -/
def utf8 (s : String) : List Nat := (s.data.map utf8Char).flatten

/-- Lowercase hex rendering of a byte list (`.hexdigest()`). -/
def hexBytesLower (bs : List Nat) : String :=
  String.mk ((bs.map (fun b => [hexDigitLower (b / 16), hexDigitLower (b % 16)])).flatten)

/-- `hmac.new(key, msg, sha1).hexdigest()` for string key and message. -/
def hmacSha1Hex (key msg : String) : String :=
  hexBytesLower (hmacSha1 (utf8 key) (utf8 msg))

/-! ## URL escaping (`urllib.quote`, `urllib.urlencode`) -/

/-- Python 2 `urllib.always_safe` membership for a byte: ASCII letters,
digits, and `_ . -`. -/
def safeByte (b : Nat) : Bool :=
  (65 ≤ b && b ≤ 90) || (97 ≤ b && b ≤ 122) || (48 ≤ b && b ≤ 57) ||
    b == 95 || b == 46 || b == 45

/-- `urllib.quote(s)` with the default `safe='/'`, applied to the UTF-8
bytes of `s`. -/
def pyQuote (s : String) : String :=
  String.mk (((utf8 s).map (fun b =>
    if safeByte b || b == 47 then [Char.ofNat b]
    else ['%', hexDigitUpper (b / 16), hexDigitUpper (b % 16)])).flatten)

/-- `urllib.quote_plus(s)`: like `quote` with no safe characters, and
spaces encoded as `+`. -/
def quotePlus (s : String) : String :=
  String.mk (((utf8 s).map (fun b =>
    if b == 32 then ['+']
    else if safeByte b then [Char.ofNat b]
    else ['%', hexDigitUpper (b / 16), hexDigitUpper (b % 16)])).flatten)

/-- `urllib.urlencode` over a key/value sequence. -/
def urlencode (ps : List (String × String)) : String :=
  String.intercalate "&" (ps.map (fun p => quotePlus p.1 ++ "=" ++ quotePlus p.2))

/-- `sorted(d.items(), key=itemgetter(0))`: sort bindings by key. -/
def sortByKey (ps : List (String × String)) : List (String × String) :=
  ps.mergeSort (fun a b => decide (a.1 ≤ b.1))

/-! ## Python `str()` of substituted values

`"%s" % value` in the mustache callback stringifies the popped value.
The container cases model Python's `repr`-based rendering in the cases
without quoting subtleties; the claims only exercise strings and
numbers here. -/

/-- Apostrophe character. -/
def squote : Char := Char.ofNat 39

mutual

/-- Python `str()` of a value (as used by `"%s" % v`). -/
def pyStr : Json → String
  | .str s => s
  | .num n => intRepr n
  | .bool true => "True"
  | .bool false => "False"
  | .null => "None"
  | .arr xs => "[" ++ pyReprList xs ++ "]"
  | .obj kvs => String.mk [lbrace] ++ pyReprFields kvs ++ String.mk [rbrace]

/-- Python `repr()` of a value. -/
def pyRepr : Json → String
  | .str s => String.mk [squote] ++ s ++ String.mk [squote]
  | .num n => intRepr n
  | .bool true => "True"
  | .bool false => "False"
  | .null => "None"
  | .arr xs => "[" ++ pyReprList xs ++ "]"
  | .obj kvs => String.mk [lbrace] ++ pyReprFields kvs ++ String.mk [rbrace]

/-- Comma-separated `repr` of list elements. -/
def pyReprList : List Json → String
  | [] => ""
  | [x] => pyRepr x
  | x :: y :: xs => pyRepr x ++ ", " ++ pyReprList (y :: xs)

/-- Comma-separated `repr` of dictionary items. -/
def pyReprFields : List (String × Json) → String
  | [] => ""
  | [kv] => String.mk [squote] ++ kv.1 ++ String.mk [squote] ++ ": " ++ pyRepr kv.2
  | kv :: kv' :: kvs =>
    String.mk [squote] ++ kv.1 ++ String.mk [squote] ++ ": " ++ pyRepr kv.2 ++ ", " ++
      pyReprFields (kv' :: kvs)

end

/-! ## `str.replace` and the mustache substitution

`re.sub('\x5c\x7b\x5c\x7b(?P<m>[a-zA-Z_]+)\x5c\x7d\x5c\x7d', lambda m: "%s" %
kwargs.pop(m.group(1), 'no_argument_specified'), base_url + fn['url'])`
is modelled by the left-to-right scanner `reSub`: at each position it
either recognises a complete `\x7b\x7bname\x7d\x7d` mustache (two braces, a
nonempty run of `[a-zA-Z_]`, two closing braces), pops the name from the
argument dictionary — substituting the fallback marker when absent — or
advances one character, exactly as the regular expression engine finds
leftmost non-overlapping matches of this pattern. -/

/-- `str.replace(pat, rep)` (all occurrences, left to right). -/
def pyReplaceF : Nat → List Char → List Char → List Char → List Char
  | 0, _, _, _ => []
  | fuel + 1, cs, pat, rep =>
    match cs with
    | [] => []
    | c :: rest =>
      if cs.take pat.length = pat ∧ pat ≠ [] then
        rep ++ pyReplaceF fuel (cs.drop pat.length) pat rep
      else c :: pyReplaceF fuel rest pat rep

/-- `s.replace(pat, rep)`. -/
def pyReplace (s pat rep : String) : String :=
  String.mk (pyReplaceF s.data.length s.data pat.data rep.data)

/-- A character matched by the regex class `[a-zA-Z_]`. -/
def isNameCh (c : Char) : Bool := c.isAlpha || c = '_'

/-- The fallback marker substituted for a mustache with no matching
argument. -/
def noArg : String := "no_argument_specified"

/-- After an opening `\x7b\x7b`, try to read `name\x7d\x7d` with a nonempty
`[a-zA-Z_]+` name; returns the name and the input after the closing
braces. -/
def takeName (cs : List Char) : Option (String × List Char) :=
  let nm := cs.takeWhile isNameCh
  if nm.isEmpty then none
  else
    match cs.drop nm.length with
    | c1 :: c2 :: rest =>
      if c1 = rbrace then if c2 = rbrace then some (String.mk nm, rest) else none
      else none
    | _ => none

/-- The mustache-substitution scanner (the `re.sub` call with the popping
callback), fuelled by the input length. -/
def reSubF : Nat → List Char → List (String × Json) →
    List Char × List (String × Json)
  | 0, _, kw => ([], kw)
  | fuel + 1, cs, kw =>
    match cs with
    | [] => ([], kw)
    | c1 :: rest =>
      if c1 = lbrace then
        match rest with
        | [] => ([c1], kw)
        | c2 :: rest2 =>
          if c2 = lbrace then
            match takeName rest2 with
            | some nr =>
              let pv := dictPop kw nr.1
              let sub := match pv.1 with
                | some v => pyStr v
                | none => noArg
              let cont := reSubF fuel nr.2 pv.2
              (sub.data ++ cont.1, cont.2)
            | none =>
              let cont := reSubF fuel (c2 :: rest2) kw
              (c1 :: cont.1, cont.2)
          else
            let cont := reSubF fuel (c2 :: rest2) kw
            (c1 :: cont.1, cont.2)
      else
        let cont := reSubF fuel rest kw
        (c1 :: cont.1, cont.2)

/-- Mustache substitution over a character list. -/
def reSub (cs : List Char) (kw : List (String × Json)) :
    List Char × List (String × Json) :=
  reSubF cs.length cs kw

/-- A template segment: a literal character or a `\x7b\x7bname\x7d\x7d`
placeholder. -/
inductive Seg where
  | lit (c : Char) : Seg
  | hole (name : String) : Seg
deriving DecidableEq

/-- Segment the template exactly the way `reSubF` scans it. -/
def scanSegsF : Nat → List Char → List Seg
  | 0, _ => []
  | fuel + 1, cs =>
    match cs with
    | [] => []
    | c1 :: rest =>
      if c1 = lbrace then
        match rest with
        | [] => [.lit c1]
        | c2 :: rest2 =>
          if c2 = lbrace then
            match takeName rest2 with
            | some nr => .hole nr.1 :: scanSegsF fuel nr.2
            | none => .lit c1 :: scanSegsF fuel (c2 :: rest2)
          else .lit c1 :: scanSegsF fuel (c2 :: rest2)
      else .lit c1 :: scanSegsF fuel rest

/-- The segments of a template. -/
def scanSegs (cs : List Char) : List Seg := scanSegsF cs.length cs

/-- The placeholder names of a segment list, in order. -/
def holeNames : List Seg → List String
  | [] => []
  | .lit _ :: ss => holeNames ss
  | .hole n :: ss => n :: holeNames ss

/-- Render segments while threading the argument dictionary through
sequential pops (the code's behaviour, stated on segments). -/
def renderSegs : List Seg → List (String × Json) →
    List Char × List (String × Json)
  | [], kw => ([], kw)
  | .lit c :: ss, kw =>
    let cont := renderSegs ss kw
    (c :: cont.1, cont.2)
  | .hole n :: ss, kw =>
    let pv := dictPop kw n
    let sub := match pv.1 with
      | some v => pyStr v
      | none => noArg
    let cont := renderSegs ss pv.2
    (sub.data ++ cont.1, cont.2)

/-- Modelled from the spec: the value one placeholder or literal
contributes to the resolved URL — a placeholder is replaced by the
same-named argument's (stringified) value when one is supplied, else by
the literal fallback marker; lookups are independent of one another. -/
def segRender (sg : Seg) (kw : List (String × Json)) : List Char :=
  match sg with
  | .lit c => [c]
  | .hole n =>
    match dictLookup kw n with
    | some v => (pyStr v).data
    | none => noArg.data

/-! ## The endpoint registry (`mockdb.py`) -/

/-- One endpoint definition from `apihash`. -/
structure Endpoint where
  url : String
  method : String
  upload : Bool := false
deriving DecidableEq

/-- `api_urls` from `mockdb.py`. -/
def api_urls : List (String × String) :=
  [("sandbox", "http://api.sandbox.mygengo.com/\x7b\x7bversion\x7d\x7d"),
   ("base", "http://api.gengo.com/\x7b\x7bversion\x7d\x7d")]

/-- `apihash` from `mockdb.py`: the full endpoint registry. -/
def apihash : List (String × Endpoint) :=
  [("getAccountStats", { url := "/account/stats", method := "GET" }),
   ("getAccountBalance", { url := "/account/balance", method := "GET" }),
   ("postTranslationJob", { url := "/translate/job", method := "POST" }),
   ("postTranslationJobs", { url := "/translate/jobs", method := "POST" }),
   ("updateTranslationJob", { url := "/translate/job/\x7b\x7bid\x7d\x7d", method := "PUT" }),
   ("getTranslationJob", { url := "/translate/job/\x7b\x7bid\x7d\x7d", method := "GET" }),
   ("getTranslationJobs", { url := "/translate/jobs", method := "GET" }),
   ("getTranslationJobBatch", { url := "/translate/jobs/\x7b\x7bid\x7d\x7d", method := "GET" }),
   ("getTranslationJobGroup", { url := "/translate/jobs/group/\x7b\x7bid\x7d\x7d", method := "GET" }),
   ("determineTranslationCost",
     { url := "/translate/service/quote", method := "POST", upload := true }),
   ("postTranslationJobComment",
     { url := "/translate/job/\x7b\x7bid\x7d\x7d/comment", method := "POST" }),
   ("getTranslationJobComments",
     { url := "/translate/job/\x7b\x7bid\x7d\x7d/comments", method := "GET" }),
   ("getTranslationJobFeedback",
     { url := "/translate/job/\x7b\x7bid\x7d\x7d/feedback", method := "GET" }),
   ("getTranslationJobRevisions",
     { url := "/translate/job/\x7b\x7bid\x7d\x7d/revisions", method := "GET" }),
   ("getTranslationJobRevision",
     { url := "/translate/job/\x7b\x7bid\x7d\x7d/revisions/\x7b\x7brevision_id\x7d\x7d",
       method := "GET" }),
   ("getTranslationJobPreviewImage",
     { url := "/translate/job/\x7b\x7bid\x7d\x7d/preview", method := "GET" }),
   ("deleteTranslationJob", { url := "/translate/job/\x7b\x7bid\x7d\x7d", method := "DELETE" }),
   ("getServiceLanguagePairs",
     { url := "/translate/service/language_pairs", method := "GET" }),
   ("getServiceLanguages", { url := "/translate/service/languages", method := "GET" }),
   ("getGlossaryList", { url := "/translate/glossary", method := "GET" }),
   ("getGlossary", { url := "/translate/glossary/\x7b\x7bid\x7d\x7d", method := "GET" }),
   ("getTranslationOrderJobs", { url := "/translate/order/\x7b\x7bid\x7d\x7d", method := "GET" })]

/-! ## Errors, configuration, requests -/

/-- Raised Python exceptions, as explicit error values. -/
inductive PyErr where
  | attributeError : PyErr
  | nameError (n : String) : PyErr
  | keyError (k : String) : PyErr
  | typeError (msg : String) : PyErr
  | exception (msg : String) : PyErr
  | gengoError (msg : Json) (code : Option Json) : PyErr
  | gengoAuthError (msg : Json) : PyErr

/-- `raise MyGengoError(msg, code)`: the constructor itself raises
`MyGengoAuthError` when the error code equals 1000 (source lines 53-58),
so the exception that actually propagates is the authentication subtype
exactly for code 1000. -/
def raiseMyGengoError (msg : Json) (code : Option Json) : PyErr :=
  match code with
  | some (.num n) => if n = 1000 then .gengoAuthError msg else .gengoError msg code
  | _ => .gengoError msg code

/-- The immutable per-client state set up by `MyGengo.__init__`. -/
structure MyGengoConfig where
  public_key : Option String := none
  private_key : Option String := none
  api_url : String := "http://api.gengo.com/\x7b\x7bversion\x7d\x7d"
  api_version : String := "2"
  headers : List (String × String) := []
  debug : Bool := false

/-- `MyGengo.__init__`: version validation, base-URL selection, default
headers and the forced `Accept` header. -/
def mkMyGengo (public_key private_key : Option String) (sandbox : Bool)
    (api_version : String) (headers : Option (List (String × String)))
    (debug : Bool) : Except PyErr MyGengoConfig :=
  if api_version = "1.1" ∨ api_version = "2" then
    .ok { public_key := public_key
          private_key := private_key
          api_url := if sandbox then
              "http://api.sandbox.mygengo.com/\x7b\x7bversion\x7d\x7d"
            else "http://api.gengo.com/\x7b\x7bversion\x7d\x7d"
          api_version := api_version
          headers := dictSet
            (headers.getD
              [("User-agent", "Gengo Python Library; Version 1.3.3; http://gengo.com/")])
            "Accept" "application/json"
          debug := debug }
  else
    .error (.exception
      "mygengo-python library only supports versions 1.1 and 2 at the moment, please keep api_version to 1.1 or 2")

/-- The request handed to the `requests` transport.  `params` is the
`query_params` dictionary at dispatch time: for POST/PUT it is sent as
the form body (`data=query_params`); for GET/DELETE its urlencoding is
the query string of `url`.  `files` maps each multipart part name to the
path of the file opened for it (`open(path, 'rb')`). -/
structure HttpRequest where
  method : String
  url : String
  headers : List (String × String)
  params : List (String × String)
  files : List (String × String)
deriving DecidableEq

/-- The recognised payload-carrying arguments popped out of `kwargs`
(source lines 131-136); `job` is wrapped as `{'job': value}`. -/
structure PostData where
  job : Option Json := none
  jobs : Option Json := none
  comment : Option Json := none
  action : Option Json := none
  job_ids : Option Json := none

/-- Pop `job`/`jobs`/`comment`/`action`/`job_ids` out of the arguments. -/
def extractPostData (kw : List (String × Json)) :
    PostData × List (String × Json) :=
  let pj := dictPop kw "job"
  let pjs := dictPop pj.2 "jobs"
  let pc := dictPop pjs.2 "comment"
  let pa := dictPop pc.2 "action"
  let pji := dictPop pa.2 "job_ids"
  ({ job := pj.1.map (fun v => Json.obj [("job", v)]),
     jobs := pjs.1, comment := pc.1, action := pa.1, job_ids := pji.1 }, pji.2)

/-- Python subscripting `j[k]` on a JSON value. -/
def jsonIndex (j : Json) (k : String) : Except PyErr Json :=
  match j with
  | .obj flds =>
    match dictLookup flds k with
    | some v => .ok v
    | none => .error (.keyError k)
  | .arr _ => .error (.typeError "list indices must be integers, not str")
  | _ => .error (.typeError "object is not subscriptable")

/-- Substring check over character lists (Python `sub in s`). -/
def strContainsSub : List Char → List Char → Bool
  | nd, [] => nd.isEmpty
  | nd, c :: rest => ((c :: rest).take nd.length == nd) || strContainsSub nd rest

/-- Python `k in j` on a JSON value. -/
def pyIn (k : String) (j : Json) : Except PyErr Bool :=
  match j with
  | .obj flds => .ok (dictLookup flds k).isSome
  | .arr xs =>
    .ok (xs.any fun x =>
      match x with
      | .str s => s == k
      | _ => false)
  | .str s => .ok (strContainsSub k.data s.data)
  | _ => .error (.typeError "argument is not iterable")

/-- Python `j == 'lit'` for a JSON value against a string literal. -/
def jsonEqStr (j : Json) (s : String) : Bool :=
  match j with
  | .str t => t == s
  | _ => false

/-- Replace field `k` of an object (in-place mutation of a nested
dictionary). -/
def jsonSetField (j : Json) (k : String) (v : Json) : Json :=
  match j with
  | .obj flds => .obj (dictSet flds k v)
  | _ => j

/-- The response check of source lines 187-191: when `opstat` is present
and differs from `"ok"`, raise `MyGengoError(err.msg, err.code)`;
otherwise return the decoded payload. -/
def checkOpstat (results : Json) : Except PyErr Json :=
  match pyIn "opstat" results with
  | .error e => .error e
  | .ok b =>
    if b then
      match jsonIndex results "opstat" with
      | .error e => .error e
      | .ok v =>
        if jsonEqStr v "ok" then .ok results
        else
          match jsonIndex results "err" with
          | .error e => .error e
          | .ok errv =>
            match jsonIndex errv "msg" with
            | .error e => .error e
            | .ok m =>
              match jsonIndex errv "code" with
              | .error e => .error e
              | .ok c => .error (raiseMyGengoError m (some c))
    else .ok results

/-- One job entry of the upload loop (source lines 169-173): a `file`
typed entry with a `file_path` gets the file opened as part
`file_<key>`, its `file_path` removed and a `file_key` reference added. -/
def processFileJob (k : String) (j : Json) :
    Except PyErr (Json × Option (String × String)) :=
  match jsonIndex j "type" with
  | .error e => .error e
  | .ok tv =>
    if jsonEqStr tv "file" then
      match j with
      | .obj flds =>
        match dictLookup flds "file_path" with
        | some fp =>
          match fp with
          | .str p =>
            .ok (Json.obj (dictErase (dictSet flds "file_key" (.str ("file_" ++ k)))
                   "file_path"),
                 some ("file_" ++ k, p))
          | _ => .error (.typeError "coercing to Unicode")
        | none => .ok (j, none)
      | _ => .error (.typeError "object is not subscriptable")
    else .ok (j, none)

/-- Process every entry of `post_data['jobs']['jobs']`, collecting the
opened files. -/
def processEntries : List (String × Json) →
    Except PyErr (List (String × Json) × List (String × String))
  | [] => .ok ([], [])
  | (k, j) :: rest =>
    match processFileJob k j with
    | .error e => .error e
    | .ok jf =>
      match processEntries rest with
      | .error e => .error e
      | .ok rf =>
        .ok ((k, jf.1) :: rf.1,
          match jf.2 with
          | some f => f :: rf.2
          | none => rf.2)

/-- The upload branch of source lines 167-175: for upload endpoints, walk
`post_data['jobs']['jobs']` opening files; otherwise `file_data` is
`False` (modelled `none`). -/
def uploadStep (fn : Endpoint) (pd : PostData) :
    Except PyErr (PostData × Option (List (String × String))) :=
  if fn.upload then
    match pd.jobs with
    | none => .error (.keyError "jobs")
    | some pj =>
      match jsonIndex pj "jobs" with
      | .error e => .error e
      | .ok jj =>
        match jj with
        | .obj entries =>
          match processEntries entries with
          | .error e => .error e
          | .ok nf =>
            .ok ({ pd with jobs := some (jsonSetField pj "jobs" (.obj nf.1)) },
                 some nf.2)
        | _ => .error .attributeError
  else .ok (pd, none)

/-- The payload choice of source lines 217-224: the first present of
`job`, `jobs`, `comment`, `action` is JSON-encoded into the `data`
field. -/
def encodePostData (pd : PostData) (qp : List (String × String)) :
    List (String × String) :=
  match pd.job with
  | some j => dictSet qp "data" (dumps j)
  | none =>
    match pd.jobs with
    | some j => dictSet qp "data" (dumps j)
    | none =>
      match pd.comment with
      | some j => dictSet qp "data" (dumps j)
      | none =>
        match pd.action with
        | some j => dictSet qp "data" (dumps j)
        | none => qp

/-- Modelled from the spec: "the first resolved in a fixed priority order
(`job`, then `jobs`, then `comment`, then `action`)". -/
def specPriorityPayload (pd : PostData) : Option Json :=
  pd.job <|> pd.jobs <|> pd.comment <|> pd.action

/-- `d[k]` with a `KeyError` when absent. -/
def dictLookupE (d : List (String × String)) (k : String) : Except PyErr String :=
  match dictLookup d k with
  | some v => .ok v
  | none => .error (.keyError k)

/-- `signAndRequestAPILatest` (source lines 198-245): encode the payload,
sign with HMAC-SHA1 over the timestamp, and build the request that is
handed to the transport, together with the debug lines printed.  The
POST/PUT debug branch evaluates the undefined name `query_data` (source
line 230), which raises `NameError`. -/
def signAndRequestAPILatest (cfg : MyGengoConfig) (fn : Endpoint) (base : String)
    (query_params : List (String × String)) (post_data : PostData)
    (file_data : Option (List (String × String))) :
    Except PyErr (HttpRequest × List String) :=
  if fn.method = "POST" ∨ fn.method = "PUT" then
    let qp := encodePostData post_data query_params
    match cfg.private_key with
    | none => .error (.typeError "key: expected a string or buffer")
    | some priv =>
      match dictLookupE qp "ts" with
      | .error e => .error e
      | .ok tsv =>
        let qp2 := dictSet qp "api_sig" (hmacSha1Hex priv tsv)
        if cfg.debug then .error (.nameError "query_data")
        else
          match file_data with
          | some fd =>
            if fd.isEmpty then
              .ok ({ method := fn.method, url := base, headers := cfg.headers,
                     params := qp2, files := [] }, [])
            else
              .ok ({ method := fn.method, url := base, headers := cfg.headers,
                     params := qp2, files := fd }, [])
          | none =>
            .ok ({ method := fn.method, url := base, headers := cfg.headers,
                   params := qp2, files := [] }, [])
  else
    let query_string := urlencode (sortByKey query_params)
    match cfg.private_key with
    | some priv =>
      match dictLookupE query_params "ts" with
      | .error e => .error e
      | .ok tsv =>
        let qp2 := dictSet query_params "api_sig" (hmacSha1Hex priv tsv)
        let query_string2 := urlencode qp2
        .ok ({ method := fn.method, url := base ++ "?" ++ query_string2,
               headers := cfg.headers, params := qp2, files := [] },
             if cfg.debug then [base ++ "?" ++ query_string2] else [])
    | none =>
      .ok ({ method := fn.method, url := base ++ "?" ++ query_string,
             headers := cfg.headers, params := query_params, files := [] },
           if cfg.debug then [base ++ "?" ++ query_string] else [])

/-- `quote(v.encode('utf-8'))` on one argument value; a non-string value
has no `.encode` and raises. -/
def encodeParamVal (v : Json) : Except PyErr String :=
  match v with
  | .str s => .ok (pyQuote s)
  | _ => .error (.typeError "object has no attribute encode")

/-- Source line 158: build `query_params` from the remaining arguments. -/
def buildQueryParams : List (String × Json) →
    Except PyErr (List (String × String))
  | [] => .ok []
  | (k, v) :: rest =>
    match encodeParamVal v with
    | .error e => .error e
    | .ok s =>
      match buildQueryParams rest with
      | .error e => .error e
      | .ok rest' => .ok ((k, s) :: rest')

/-- The `\x7b\x7bversion\x7d\x7d` token replaced in the base URL. -/
def verTok : String := "\x7b\x7bversion\x7d\x7d"

/-- One complete call through the synthesized endpoint method
(`__getattr__` plus the returned `get`, source lines 105-196): resolve
the endpoint, extract payloads, substitute the URL, build and sign the
request, execute it through `transport`, and decode the response.
Returns the list of requests actually issued, the debug lines printed,
and the call's outcome. -/
def invoke (cfg : MyGengoConfig) (api_call : String) (kwargs : List (String × Json))
    (ts : Nat) (transport : HttpRequest → Json) :
    List HttpRequest × List String × Except PyErr Json :=
  match dictLookup apihash api_call with
  | none => ([], [], .error .attributeError)
  | some fn =>
    let ex := extractPostData kwargs
    if (dictLookup ex.2 "ids").isSome then ([], [], .error (.nameError "ids"))
    else
      let base_url := pyReplace cfg.api_url verTok ("v" ++ cfg.api_version)
      let sub := reSub (base_url ++ fn.url).data ex.2
      let base := String.mk sub.1
      match buildQueryParams sub.2 with
      | .error e => ([], [], .error e)
      | .ok qp0 =>
        let qp1 := match cfg.public_key with
          | some pk => dictSet qp0 "api_key" pk
          | none => qp0
        let qp2 := dictSet qp1 "ts" (natRepr ts)
        match uploadStep fn ex.1 with
        | .error e => ([], [], .error e)
        | .ok pf =>
          match signAndRequestAPILatest cfg fn base qp2 pf.1 pf.2 with
          | .error e => ([], [], .error e)
          | .ok rq => ([rq.1], rq.2, checkOpstat (transport rq.1))

/-! # Theorems -/

/-! ## Dictionary lemmas -/

theorem dictLookup_dictSet_self {α : Type} (d : List (String × α)) (k : String) (v : α) :
    dictLookup (dictSet d k v) k = some v := by
  induction d with
  | nil => simp [dictSet, dictLookup]
  | cons p rest ih =>
    obtain ⟨k', v'⟩ := p
    by_cases h : k' = k <;> simp [dictSet, dictLookup, h, ih]

theorem dictLookup_dictSet_ne {α : Type} (d : List (String × α)) (k k' : String) (v : α)
    (h : k ≠ k') : dictLookup (dictSet d k v) k' = dictLookup d k' := by
  induction d with
  | nil => simp [dictSet, dictLookup, h]
  | cons p rest ih =>
    obtain ⟨k₀, v₀⟩ := p
    by_cases h0 : k₀ = k <;> simp [dictSet, dictLookup, h0, h, ih]

theorem dictLookup_dictErase_ne {α : Type} (d : List (String × α)) (k k' : String)
    (h : k ≠ k') : dictLookup (dictErase d k) k' = dictLookup d k' := by
  induction d with
  | nil => simp [dictErase]
  | cons p rest ih =>
    obtain ⟨k₀, v₀⟩ := p
    by_cases h0 : k₀ = k
    · subst h0
      simp [dictErase, dictLookup, h]
    · simp [dictErase, dictLookup, h0, ih]

theorem dictLookup_eq_none_iff {α : Type} (d : List (String × α)) (k : String) :
    dictLookup d k = none ↔ ∀ p ∈ d, p.1 ≠ k := by
  induction d with
  | nil => simp [dictLookup]
  | cons p rest ih =>
    obtain ⟨k₀, v₀⟩ := p
    by_cases h0 : k₀ = k <;> simp [dictLookup, h0, ih]

theorem dictErase_sublist {α : Type} (d : List (String × α)) (k : String) :
    (dictErase d k).Sublist d := by
  induction d with
  | nil => simp [dictErase]
  | cons p rest ih =>
    obtain ⟨k₀, v₀⟩ := p
    by_cases h0 : k₀ = k
    · simp [dictErase, h0]
    · simpa [dictErase, h0] using ih.cons₂ (k₀, v₀)

theorem dictLookup_dictErase_self {α : Type} (d : List (String × α)) (k : String)
    (hnd : (dictKeys d).Nodup) : dictLookup (dictErase d k) k = none := by
  induction d with
  | nil => simp [dictErase, dictLookup]
  | cons p rest ih =>
    obtain ⟨k₀, v₀⟩ := p
    simp only [dictKeys, List.map_cons, List.nodup_cons] at hnd
    by_cases h0 : k₀ = k
    · subst h0
      simp only [dictErase, if_pos rfl]
      rw [dictLookup_eq_none_iff]
      intro q hq hk
      exact hnd.1 (hk ▸ List.mem_map_of_mem Prod.fst hq)
    · simp [dictErase, dictLookup, h0, ih hnd.2]

theorem dictLookup_none_of_sublist {α : Type} {d d' : List (String × α)} {k : String}
    (hs : d'.Sublist d) (h : dictLookup d k = none) : dictLookup d' k = none := by
  rw [dictLookup_eq_none_iff] at h ⊢
  exact fun p hp => h p (hs.mem hp)

theorem dictKeys_nodup_dictErase {α : Type} (d : List (String × α)) (k : String)
    (hnd : (dictKeys d).Nodup) : (dictKeys (dictErase d k)).Nodup :=
  ((dictErase_sublist d k).map Prod.fst).nodup hnd

/-! ## Character and digit lemmas -/

theorem charToNat_ofNat {m : Nat} (h : m < 55296) : (Char.ofNat m).toNat = m := by
  have hv : Nat.isValidChar m := Or.inl h
  simp [Char.ofNat, hv, Char.ofNatAux, Char.toNat, UInt32.toNat]

theorem digitVal_digitChar {d : Nat} (h : d < 10) :
    digitVal (Char.ofNat (48 + d)) = d := by
  rw [digitVal, charToNat_ofNat (by omega)]
  omega

theorem isDigitCh_digitChar {d : Nat} (h : d < 10) :
    isDigitCh (Char.ofNat (48 + d)) = true := by
  rw [isDigitCh, charToNat_ofNat (by omega)]
  simp only [Bool.and_eq_true, decide_eq_true_eq]
  omega

/-! ## Decimal rendering round-trip -/

theorem natDigitsAux_all_digit :
    ∀ fuel n : Nat, ∀ c ∈ natDigitsAux fuel n, isDigitCh c = true := by
  intro fuel
  induction fuel with
  | zero => intro n c hc; simp [natDigitsAux] at hc
  | succ f ih =>
    intro n c hc
    by_cases h0 : n = 0
    · simp [natDigitsAux, h0] at hc
    · simp only [natDigitsAux, if_neg h0, List.mem_append, List.mem_singleton] at hc
      rcases hc with hc | hc
      · exact ih _ c hc
      · subst hc
        exact isDigitCh_digitChar (Nat.mod_lt _ (by omega))

theorem natDigitsAux_ne_nil {fuel n : Nat} (h0 : n ≠ 0) (hf : n ≤ fuel) :
    natDigitsAux fuel n ≠ [] := by
  cases fuel with
  | zero => omega
  | succ f => simp [natDigitsAux, h0]

theorem natDigitsAux_foldl :
    ∀ fuel n acc : Nat, n ≤ fuel →
      List.foldl (fun a c => a * 10 + digitVal c) acc (natDigitsAux fuel n) =
        acc * 10 ^ (natDigitsAux fuel n).length + n := by
  intro fuel
  induction fuel with
  | zero => intro n acc h; interval_cases n; simp [natDigitsAux]
  | succ f ih =>
    intro n acc h
    by_cases h0 : n = 0
    · simp [natDigitsAux, h0]
    · have hdiv : n / 10 ≤ f := by
        have := Nat.div_lt_self (Nat.pos_of_ne_zero h0) (by omega : 1 < 10)
        omega
      simp only [natDigitsAux, if_neg h0, List.foldl_append, List.length_append,
        List.foldl_cons, List.foldl_nil, List.length_cons, List.length_nil]
      rw [ih (n / 10) acc hdiv, digitVal_digitChar (Nat.mod_lt _ (by omega))]
      rw [pow_succ]
      have := Nat.div_add_mod n 10
      ring_nf
      omega

theorem charsToNat_natDigitsAux {n : Nat} :
    charsToNat (natDigitsAux n n) = n := by
  rw [charsToNat, natDigitsAux_foldl n n 0 le_rfl]
  simp

theorem takeWhile_digits (ds rest : List Char) (hds : ∀ c ∈ ds, isDigitCh c = true)
    (hrest : noDigitStart rest) : (ds ++ rest).takeWhile isDigitCh = ds := by
  induction ds with
  | nil =>
    cases rest with
    | nil => simp
    | cons c r => simp [List.takeWhile_cons, hrest c rfl]
  | cons c ds ih =>
    simp only [List.cons_append, List.takeWhile_cons, hds c (by simp), if_true]
    rw [ih (fun c hc => hds c (by simp [hc]))]

theorem char_dash_ne_of_digit {c : Char} (h : isDigitCh c = true) : ¬(c = '-') := by
  intro he
  subst he
  simp [isDigitCh] at h

theorem parseNum_roundtrip (i : Int) (rest : List Char) (h : noDigitStart rest) :
    parseNum ((intRepr i).data ++ rest) = some (.num i, rest) := by
  by_cases hneg : i < 0
  · have hn0 : i.natAbs ≠ 0 := by omega
    have hdata : (intRepr i).data = '-' :: natDigitsAux i.natAbs i.natAbs := by
      rw [intRepr, if_pos hneg, natRepr, if_neg hn0, String.data_append]
      rfl
    rw [hdata]
    have hds := takeWhile_digits (natDigitsAux i.natAbs i.natAbs) rest
      (natDigitsAux_all_digit _ _) h
    have hne := natDigitsAux_ne_nil hn0 (le_refl i.natAbs)
    rw [List.cons_append, parseNum, if_pos rfl, hds]
    rw [if_neg (by simpa [List.isEmpty_iff] using hne)]
    rw [charsToNat_natDigitsAux, List.drop_left]
    have : -(i.natAbs : Int) = i := by omega
    rw [this]
  · by_cases h0 : i.natAbs = 0
    · have : i = 0 := by omega
      subst this
      have hdata : (intRepr 0).data = ['0'] := by decide
      rw [hdata]
      cases rest with
      | nil =>
        simp only [List.cons_append, List.nil_append, parseNum]
        norm_num [List.takeWhile, charsToNat, digitVal]
        decide
      | cons c r =>
        simp only [List.cons_append, List.nil_append, parseNum]
        rw [if_neg (by decide)]
        have : List.takeWhile isDigitCh ('0' :: c :: r) = ['0'] := by
          simpa using takeWhile_digits ['0'] (c :: r) (by decide) h
        rw [this]
        simp [charsToNat, digitVal]
    · have hdata : (intRepr i).data = natDigitsAux i.natAbs i.natAbs := by
        rw [intRepr, if_neg hneg, natRepr, if_neg h0]
      rw [hdata]
      obtain ⟨c, cs, hcons⟩ : ∃ c cs, natDigitsAux i.natAbs i.natAbs = c :: cs := by
        cases hx : natDigitsAux i.natAbs i.natAbs with
        | nil => exact absurd hx (natDigitsAux_ne_nil h0 le_rfl)
        | cons c cs => exact ⟨c, cs, rfl⟩
      have hcd : isDigitCh c = true := natDigitsAux_all_digit _ _ c (by rw [hcons]; simp)
      have hds := takeWhile_digits (natDigitsAux i.natAbs i.natAbs) rest
        (natDigitsAux_all_digit _ _) h
      rw [hcons] at hds ⊢
      simp only [List.cons_append] at hds
      rw [List.cons_append, parseNum, if_neg (char_dash_ne_of_digit hcd), hds]
      rw [if_neg (by simp)]
      have hv : charsToNat (c :: cs) = i.natAbs := by
        rw [← hcons, charsToNat_natDigitsAux]
      rw [hv]
      have hdrop : (c :: (cs ++ rest)).drop (c :: cs).length = rest := by
        rw [← List.cons_append]
        exact List.drop_left _ _
      rw [hdrop]
      have : ((i.natAbs : Nat) : Int) = i := by omega
      rw [this]

/-! ## String escaping round-trip -/

theorem hexVal_hexDigitLower {m : Nat} (h : m < 16) :
    hexVal (hexDigitLower m) = some m := by
  by_cases h10 : m < 10
  · rw [hexDigitLower, if_pos h10, hexVal, charToNat_ofNat (by omega)]
    rw [if_pos (by simp only [Bool.and_eq_true, decide_eq_true_eq]; omega)]
    simp only [Option.some.injEq]
    omega
  · rw [hexDigitLower, if_neg h10, hexVal, charToNat_ofNat (by omega)]
    rw [if_neg (by simp only [Bool.and_eq_true, decide_eq_true_eq]; omega)]
    rw [if_pos (by simp only [Bool.and_eq_true, decide_eq_true_eq]; omega)]
    simp only [Option.some.injEq]
    omega

theorem parseStrF_q (f : Nat) (tl : List Char) :
    parseStrF (f + 1) (Char.ofNat 34 :: tl) = some ([], tl) := rfl

theorem parseStrF_e34 (f : Nat) (tl : List Char) :
    parseStrF (f + 1) (Char.ofNat 92 :: Char.ofNat 34 :: tl) =
      (parseStrF f tl).map (fun p => (Char.ofNat 34 :: p.1, p.2)) := rfl

theorem parseStrF_e92 (f : Nat) (tl : List Char) :
    parseStrF (f + 1) (Char.ofNat 92 :: Char.ofNat 92 :: tl) =
      (parseStrF f tl).map (fun p => (Char.ofNat 92 :: p.1, p.2)) := rfl

theorem parseStrF_e8 (f : Nat) (tl : List Char) :
    parseStrF (f + 1) (Char.ofNat 92 :: 'b' :: tl) =
      (parseStrF f tl).map (fun p => (Char.ofNat 8 :: p.1, p.2)) := rfl

theorem parseStrF_e12 (f : Nat) (tl : List Char) :
    parseStrF (f + 1) (Char.ofNat 92 :: 'f' :: tl) =
      (parseStrF f tl).map (fun p => (Char.ofNat 12 :: p.1, p.2)) := rfl

theorem parseStrF_e10 (f : Nat) (tl : List Char) :
    parseStrF (f + 1) (Char.ofNat 92 :: 'n' :: tl) =
      (parseStrF f tl).map (fun p => (Char.ofNat 10 :: p.1, p.2)) := rfl

theorem parseStrF_e13 (f : Nat) (tl : List Char) :
    parseStrF (f + 1) (Char.ofNat 92 :: 'r' :: tl) =
      (parseStrF f tl).map (fun p => (Char.ofNat 13 :: p.1, p.2)) := rfl

theorem parseStrF_e9 (f : Nat) (tl : List Char) :
    parseStrF (f + 1) (Char.ofNat 92 :: 't' :: tl) =
      (parseStrF f tl).map (fun p => (Char.ofNat 9 :: p.1, p.2)) := rfl

theorem parseStrF_u (f : Nat) (h3 h4 : Char) (a b : Nat) (tl : List Char)
    (ha : hexVal h3 = some a) (hb : hexVal h4 = some b) :
    parseStrF (f + 1) (Char.ofNat 92 :: 'u' :: '0' :: '0' :: h3 :: h4 :: tl) =
      (parseStrF f tl).map
        (fun p => (Char.ofNat (0 * 4096 + 0 * 256 + a * 16 + b) :: p.1, p.2)) := by
  rw [show parseStrF (f + 1) (Char.ofNat 92 :: 'u' :: '0' :: '0' :: h3 :: h4 :: tl) =
    (match hexVal '0', hexVal '0', hexVal h3, hexVal h4 with
     | some a, some b, some c', some d =>
       Option.map (fun p => (Char.ofNat (a * 4096 + b * 256 + c' * 16 + d) :: p.1, p.2))
         (parseStrF f tl)
     | _, _, _, _ => none) from rfl]
  rw [show hexVal '0' = some 0 from rfl, ha, hb]

theorem parseStrF_plain (f : Nat) (c : Char) (tl : List Char)
    (h1 : ¬c = Char.ofNat 34) (h2 : ¬c = Char.ofNat 92) (h3 : ¬c.toNat < 32) :
    parseStrF (f + 1) (c :: tl) = (parseStrF f tl).map (fun p => (c :: p.1, p.2)) := by
  simp only [parseStrF, if_neg h1, if_neg h2, if_neg h3]

theorem parseStrF_escape :
    ∀ (s : List Char) (fuel : Nat) (rest : List Char), s.length < fuel →
      parseStrF fuel (jsonEscape s ++ (Char.ofNat 34 :: rest)) = some (s, rest) := by
  intro s
  induction s with
  | nil =>
    intro fuel rest hf
    match fuel, hf with
    | f + 1, _ =>
      rw [jsonEscape, List.nil_append, parseStrF_q]
  | cons c cs ih =>
    intro fuel rest hf
    match fuel, hf with
    | f + 1, hf2 =>
      have hfr : cs.length < f := by
        simp only [List.length_cons] at hf2
        omega
      rw [jsonEscape]
      by_cases h1 : c = Char.ofNat 34
      · subst h1
        rw [show jsonEscapeChar (Char.ofNat 34) = [Char.ofNat 92, Char.ofNat 34] from rfl]
        simp only [List.cons_append, List.nil_append]
        rw [parseStrF_e34, ih f rest hfr]
        rfl
      · by_cases h2 : c = Char.ofNat 92
        · subst h2
          rw [show jsonEscapeChar (Char.ofNat 92) = [Char.ofNat 92, Char.ofNat 92] from rfl]
          simp only [List.cons_append, List.nil_append]
          rw [parseStrF_e92, ih f rest hfr]
          rfl
        · by_cases h3 : c = Char.ofNat 8
          · subst h3
            rw [show jsonEscapeChar (Char.ofNat 8) = [Char.ofNat 92, 'b'] from rfl]
            simp only [List.cons_append, List.nil_append]
            rw [parseStrF_e8, ih f rest hfr]
            rfl
          · by_cases h4 : c = Char.ofNat 12
            · subst h4
              rw [show jsonEscapeChar (Char.ofNat 12) = [Char.ofNat 92, 'f'] from rfl]
              simp only [List.cons_append, List.nil_append]
              rw [parseStrF_e12, ih f rest hfr]
              rfl
            · by_cases h5 : c = Char.ofNat 10
              · subst h5
                rw [show jsonEscapeChar (Char.ofNat 10) = [Char.ofNat 92, 'n'] from rfl]
                simp only [List.cons_append, List.nil_append]
                rw [parseStrF_e10, ih f rest hfr]
                rfl
              · by_cases h6 : c = Char.ofNat 13
                · subst h6
                  rw [show jsonEscapeChar (Char.ofNat 13) = [Char.ofNat 92, 'r'] from rfl]
                  simp only [List.cons_append, List.nil_append]
                  rw [parseStrF_e13, ih f rest hfr]
                  rfl
                · by_cases h7 : c = Char.ofNat 9
                  · subst h7
                    rw [show jsonEscapeChar (Char.ofNat 9) = [Char.ofNat 92, 't'] from rfl]
                    simp only [List.cons_append, List.nil_append]
                    rw [parseStrF_e9, ih f rest hfr]
                    rfl
                  · by_cases h8 : c.toNat < 32
                    · have hesc : jsonEscapeChar c =
                          [Char.ofNat 92, 'u', '0', '0',
                            hexDigitLower (c.toNat / 16), hexDigitLower (c.toNat % 16)] := by
                        rw [jsonEscapeChar, if_neg h1, if_neg h2, if_neg h3, if_neg h4,
                          if_neg h5, if_neg h6, if_neg h7, if_pos h8]
                      rw [hesc]
                      simp only [List.cons_append, List.nil_append]
                      rw [parseStrF_u f _ _ (c.toNat / 16) (c.toNat % 16) _
                        (hexVal_hexDigitLower (by omega)) (hexVal_hexDigitLower (by omega))]
                      rw [ih f rest hfr]
                      have hc : Char.ofNat (c.toNat / 16 * 16 + c.toNat % 16) = c := by
                        have h16 : c.toNat / 16 * 16 + c.toNat % 16 = c.toNat := by omega
                        rw [h16, Char.ofNat_toNat]
                      simp [hc]
                    · have hesc : jsonEscapeChar c = [c] := by
                        rw [jsonEscapeChar, if_neg h1, if_neg h2, if_neg h3, if_neg h4,
                          if_neg h5, if_neg h6, if_neg h7, if_neg h8]
                      rw [hesc]
                      simp only [List.cons_append, List.nil_append]
                      rw [parseStrF_plain f c _ h1 h2 h8, ih f rest hfr]
                      rfl

/-! ## Parser step lemmas and encoder head facts -/

theorem expectChars_append (pat rest : List Char) :
    expectChars pat (pat ++ rest) = some rest := by
  rw [expectChars, if_pos (List.take_left pat rest), List.drop_left]

theorem jsonEscape_length (s : List Char) : s.length ≤ (jsonEscape s).length := by
  induction s with
  | nil => simp [jsonEscape]
  | cons c cs ih =>
    have hc : 1 ≤ (jsonEscapeChar c).length := by
      rw [jsonEscapeChar]
      repeat' split
      all_goals simp
    rw [jsonEscape]
    simp only [List.length_append, List.length_cons]
    omega

theorem digit_ne_keyword {c : Char} (h : isDigitCh c = true) :
    ¬c = 'n' ∧ ¬c = 't' ∧ ¬c = 'f' ∧ ¬c = Char.ofNat 34 ∧ ¬c = '[' ∧ ¬c = lbrace := by
  refine ⟨?_, ?_, ?_, ?_, ?_, ?_⟩ <;> intro he <;> subst he <;> simp [isDigitCh, lbrace] at h

theorem parseValueF_n (f : Nat) (tl : List Char) :
    parseValueF (f + 1) ('n' :: tl) =
      (expectChars ['u', 'l', 'l'] tl).map (fun r => (Json.null, r)) := rfl

theorem parseValueF_t (f : Nat) (tl : List Char) :
    parseValueF (f + 1) ('t' :: tl) =
      (expectChars ['r', 'u', 'e'] tl).map (fun r => (Json.bool true, r)) := rfl

theorem parseValueF_f (f : Nat) (tl : List Char) :
    parseValueF (f + 1) ('f' :: tl) =
      (expectChars ['a', 'l', 's', 'e'] tl).map (fun r => (Json.bool false, r)) := rfl

theorem parseValueF_quo (f : Nat) (tl : List Char) :
    parseValueF (f + 1) (Char.ofNat 34 :: tl) =
      (parseStrF (tl.length + 1) tl).map (fun p => (Json.str (String.mk p.1), p.2)) := rfl

theorem parseValueF_bracket (f : Nat) (r0 : Char) (tl : List Char) :
    parseValueF (f + 1) ('[' :: r0 :: tl) =
      (if r0 = ']' then some (Json.arr [], tl)
       else (parseElemsF f (r0 :: tl)).map (fun p => (Json.arr p.1, p.2))) := rfl

theorem parseValueF_brace (f : Nat) (r0 : Char) (tl : List Char) :
    parseValueF (f + 1) (lbrace :: r0 :: tl) =
      (if r0 = rbrace then some (Json.obj [], tl)
       else (parseMembersF f (r0 :: tl)).map (fun p => (Json.obj p.1, p.2))) := rfl

theorem parseValueF_dash (f : Nat) (tl : List Char) :
    parseValueF (f + 1) ('-' :: tl) = parseNum ('-' :: tl) := rfl

theorem parseValueF_digit (f : Nat) (c : Char) (tl : List Char) (h : isDigitCh c = true) :
    parseValueF (f + 1) (c :: tl) = parseNum (c :: tl) := by
  obtain ⟨h1, h2, h3, h4, h5, h6⟩ := digit_ne_keyword h
  simp only [parseValueF, if_neg h1, if_neg h2, if_neg h3, if_neg h4, if_neg h5, if_neg h6]

theorem parseElemsF_succ (f : Nat) (cs : List Char) :
    parseElemsF (f + 1) cs =
      (parseValueF f cs).bind fun p =>
        match p.2 with
        | [] => none
        | s :: r' =>
          if s = ',' then (parseElemsF f r').map (fun q => (p.1 :: q.1, q.2))
          else if s = ']' then some ([p.1], r')
          else none := rfl

theorem parseMembersF_quo (f : Nat) (tl : List Char) :
    parseMembersF (f + 1) (Char.ofNat 34 :: tl) =
      (parseStrF (tl.length + 1) tl).bind fun pk =>
        match pk.2 with
        | [] => none
        | col :: r' =>
          if col = ':' then
            (parseValueF f r').bind fun pv =>
              match pv.2 with
              | [] => none
              | s :: r''' =>
                if s = ',' then
                  (parseMembersF f r''').map
                    (fun pm => ((String.mk pk.1, pv.1) :: pm.1, pm.2))
                else if s = rbrace then some ([(String.mk pk.1, pv.1)], r''')
                else none
          else none := rfl

theorem intRepr_head (i : Int) :
    ∃ c tl, (intRepr i).data = c :: tl ∧ (isDigitCh c = true ∨ c = '-') := by
  by_cases hneg : i < 0
  · have hn0 : i.natAbs ≠ 0 := by omega
    refine ⟨'-', natDigitsAux i.natAbs i.natAbs, ?_, Or.inr rfl⟩
    rw [intRepr, if_pos hneg, natRepr, if_neg hn0, String.data_append]
    rfl
  · by_cases h0 : i.natAbs = 0
    · refine ⟨'0', [], ?_, Or.inl (by decide)⟩
      have : i = 0 := by omega
      subst this
      decide
    · obtain ⟨c, cs, hcons⟩ : ∃ c cs, natDigitsAux i.natAbs i.natAbs = c :: cs := by
        cases hx : natDigitsAux i.natAbs i.natAbs with
        | nil => exact absurd hx (natDigitsAux_ne_nil h0 le_rfl)
        | cons c cs => exact ⟨c, cs, rfl⟩
      refine ⟨c, cs, ?_, Or.inl (natDigitsAux_all_digit _ _ c (by rw [hcons]; simp))⟩
      rw [intRepr, if_neg hneg, natRepr, if_neg h0, hcons]

theorem dumps_head (j : Json) :
    ∃ c tl, (dumps j).data = c :: tl ∧ ¬c = ']' ∧ ¬c = ',' := by
  cases j with
  | null => exact ⟨'n', ['u', 'l', 'l'], rfl, by decide, by decide⟩
  | bool b =>
    cases b with
    | true => exact ⟨'t', ['r', 'u', 'e'], rfl, by decide, by decide⟩
    | false => exact ⟨'f', ['a', 'l', 's', 'e'], rfl, by decide, by decide⟩
  | num n =>
    obtain ⟨c, tl, hdata, hc⟩ := intRepr_head n
    refine ⟨c, tl, hdata, ?_, ?_⟩
    · rcases hc with hd | hd
      · intro he; subst he; simp [isDigitCh] at hd
      · subst hd; decide
    · rcases hc with hd | hd
      · intro he; subst he; simp [isDigitCh] at hd
      · subst hd; decide
  | str s =>
    exact ⟨Char.ofNat 34, jsonEscape s.data ++ [Char.ofNat 34], rfl, by decide, by decide⟩
  | arr xs =>
    refine ⟨'[', ((dumpsArr xs).data ++ [']']), ?_, by decide, by decide⟩
    show ("[" ++ dumpsArr xs ++ "]").data = _
    rw [String.data_append, String.data_append]
    rfl
  | obj kvs =>
    refine ⟨lbrace, ((dumpsObj kvs).data ++ [rbrace]), ?_, by decide, by decide⟩
    show (String.mk [lbrace] ++ dumpsObj kvs ++ String.mk [rbrace]).data = _
    rw [String.data_append, String.data_append]
    rfl

theorem dumpsObj_head (kv : String × Json) (kvs : List (String × Json)) :
    ∃ tl, (dumpsObj (kv :: kvs)).data = Char.ofNat 34 :: tl := by
  cases kvs with
  | nil =>
    refine ⟨jsonEscape kv.1.data ++ [Char.ofNat 34] ++ (":" ++ dumps kv.2).data, ?_⟩
    show (String.mk (Char.ofNat 34 :: jsonEscape kv.1.data ++ [Char.ofNat 34]) ++ ":"
        ++ dumps kv.2).data = _
    rw [String.data_append, String.data_append]
    simp
  | cons kv' kvs' =>
    refine ⟨jsonEscape kv.1.data ++ [Char.ofNat 34] ++
      ((":" ++ dumps kv.2).data ++ ("," ++ dumpsObj (kv' :: kvs')).data), ?_⟩
    show (String.mk (Char.ofNat 34 :: jsonEscape kv.1.data ++ [Char.ofNat 34]) ++ ":"
        ++ dumps kv.2 ++ "," ++ dumpsObj (kv' :: kvs')).data = _
    rw [String.data_append, String.data_append, String.data_append, String.data_append]
    simp

theorem jsonFuel_pos (j : Json) : 1 ≤ jsonFuel j := by
  cases j with
  | arr xs => cases xs <;> simp [jsonFuel]
  | obj kvs => cases kvs <;> simp [jsonFuel]
  | _ => simp [jsonFuel]

theorem elemsFuel_pos (xs : List Json) : 1 ≤ elemsFuel xs := by
  cases xs with
  | nil => simp [elemsFuel]
  | cons x xs' => cases xs' <;> simp [elemsFuel]

theorem membersFuel_pos (kvs : List (String × Json)) : 1 ≤ membersFuel kvs := by
  cases kvs with
  | nil => simp [membersFuel]
  | cons kv kvs' => cases kvs' <;> simp [membersFuel]

theorem parseValueF_bracket_ne (f : Nat) (c0 : Char) (cs : List Char)
    (h : cs.head? = some c0) (hne : ¬c0 = ']') :
    parseValueF (f + 1) ('[' :: cs) =
      (parseElemsF f cs).map (fun p => (Json.arr p.1, p.2)) := by
  cases cs with
  | nil => simp at h
  | cons a tl =>
    simp only [List.head?_cons, Option.some.injEq] at h
    subst h
    rw [parseValueF_bracket, if_neg hne]

theorem parseValueF_brace_ne (f : Nat) (c0 : Char) (cs : List Char)
    (h : cs.head? = some c0) (hne : ¬c0 = rbrace) :
    parseValueF (f + 1) (lbrace :: cs) =
      (parseMembersF f cs).map (fun p => (Json.obj p.1, p.2)) := by
  cases cs with
  | nil => simp at h
  | cons a tl =>
    simp only [List.head?_cons, Option.some.injEq] at h
    subst h
    rw [parseValueF_brace, if_neg hne]

/-- The central round-trip: with enough fuel, the parser inverts the
compact encoder (for values, element lists and member lists at once). -/
theorem parse_dumps (fuel : Nat) :
    (∀ (j : Json) (rest : List Char), jsonFuel j ≤ fuel → noDigitStart rest →
      parseValueF fuel ((dumps j).data ++ rest) = some (j, rest)) ∧
    (∀ (xs : List Json) (rest : List Char), xs ≠ [] → elemsFuel xs ≤ fuel →
      parseElemsF fuel ((dumpsArr xs).data ++ (']' :: rest)) = some (xs, rest)) ∧
    (∀ (kvs : List (String × Json)) (rest : List Char), kvs ≠ [] →
      membersFuel kvs ≤ fuel →
      parseMembersF fuel ((dumpsObj kvs).data ++ (rbrace :: rest)) = some (kvs, rest)) := by
  induction fuel with
  | zero =>
    refine ⟨?_, ?_, ?_⟩
    · intro j rest hle _
      have := jsonFuel_pos j
      omega
    · intro xs rest hne hle
      have := elemsFuel_pos xs
      omega
    · intro kvs rest hne hle
      have := membersFuel_pos kvs
      omega
  | succ f ih =>
    obtain ⟨ihv, ihe, ihm⟩ := ih
    refine ⟨?_, ?_, ?_⟩
    · intro j rest hle hnd
      cases j with
      | null =>
        rw [show (dumps Json.null).data ++ rest = 'n' :: (['u', 'l', 'l'] ++ rest) from rfl]
        rw [parseValueF_n, expectChars_append]
        rfl
      | bool b =>
        cases b with
        | true =>
          rw [show (dumps (Json.bool true)).data ++ rest
            = 't' :: (['r', 'u', 'e'] ++ rest) from rfl]
          rw [parseValueF_t, expectChars_append]
          rfl
        | false =>
          rw [show (dumps (Json.bool false)).data ++ rest
            = 'f' :: (['a', 'l', 's', 'e'] ++ rest) from rfl]
          rw [parseValueF_f, expectChars_append]
          rfl
      | num n =>
        obtain ⟨c, tl, hdata, hc⟩ := intRepr_head n
        have hdd : (dumps (Json.num n)).data = c :: tl := hdata
        rw [hdd, List.cons_append]
        have hback : c :: (tl ++ rest) = (intRepr n).data ++ rest := by
          rw [hdata]
          rfl
        rcases hc with hd | hd
        · rw [parseValueF_digit f c _ hd, hback]
          exact parseNum_roundtrip n rest hnd
        · subst hd
          rw [parseValueF_dash, hback]
          exact parseNum_roundtrip n rest hnd
      | str s =>
        rw [show (dumps (Json.str s)).data ++ rest
          = Char.ofNat 34 :: ((jsonEscape s.data ++ [Char.ofNat 34]) ++ rest) from rfl]
        rw [parseValueF_quo]
        have harr : (jsonEscape s.data ++ [Char.ofNat 34]) ++ rest
            = jsonEscape s.data ++ (Char.ofNat 34 :: rest) := by
          simp
        rw [harr]
        rw [parseStrF_escape s.data _ rest ?hlen]
        case hlen =>
          have := jsonEscape_length s.data
          simp only [List.length_append, List.length_cons]
          omega
        rfl
      | arr xs =>
        cases xs with
        | nil =>
          rw [show (dumps (Json.arr [])).data ++ rest = '[' :: ']' :: rest from rfl]
          rw [parseValueF_bracket, if_pos rfl]
        | cons x xs' =>
          have hdd : (dumps (Json.arr (x :: xs'))).data
              = '[' :: ((dumpsArr (x :: xs')).data ++ [']']) := by
            show ("[" ++ dumpsArr (x :: xs') ++ "]").data = _
            rw [String.data_append, String.data_append]
            rfl
          rw [hdd, List.cons_append]
          obtain ⟨tl2, hda⟩ : ∃ tl2, (dumpsArr (x :: xs')).data = (dumps x).data ++ tl2 := by
            cases xs' with
            | nil => exact ⟨[], by simp [dumpsArr]⟩
            | cons y ys =>
              refine ⟨("," ++ dumpsArr (y :: ys)).data, ?_⟩
              show (dumps x ++ "," ++ dumpsArr (y :: ys)).data = _
              rw [String.data_append, String.data_append, String.data_append]
              simp
          obtain ⟨c0, tl0, hx, hne1, _⟩ := dumps_head x
          rw [parseValueF_bracket_ne f c0 _ (by rw [hda, hx]; rfl) hne1]
          have hassoc : ((dumpsArr (x :: xs')).data ++ [']']) ++ rest
              = (dumpsArr (x :: xs')).data ++ (']' :: rest) := by
            simp
          rw [hassoc]
          rw [ihe (x :: xs') rest (by simp) ?felems]
          case felems =>
            rw [show jsonFuel (Json.arr (x :: xs')) = 1 + elemsFuel (x :: xs') from rfl] at hle
            omega
          rfl
      | obj kvs =>
        cases kvs with
        | nil =>
          rw [show (dumps (Json.obj [])).data ++ rest = lbrace :: rbrace :: rest from rfl]
          rw [parseValueF_brace, if_pos rfl]
        | cons kv kvs' =>
          have hdd : (dumps (Json.obj (kv :: kvs'))).data
              = lbrace :: ((dumpsObj (kv :: kvs')).data ++ [rbrace]) := by
            show (String.mk [lbrace] ++ dumpsObj (kv :: kvs') ++ String.mk [rbrace]).data = _
            rw [String.data_append, String.data_append]
            rfl
          rw [hdd, List.cons_append]
          obtain ⟨tlk, hk⟩ := dumpsObj_head kv kvs'
          rw [parseValueF_brace_ne f (Char.ofNat 34) _ (by rw [hk]; rfl) (by decide)]
          have hassoc : ((dumpsObj (kv :: kvs')).data ++ [rbrace]) ++ rest
              = (dumpsObj (kv :: kvs')).data ++ (rbrace :: rest) := by
            simp
          rw [hassoc]
          rw [ihm (kv :: kvs') rest (by simp) ?fmem]
          case fmem =>
            rw [show jsonFuel (Json.obj (kv :: kvs')) = 1 + membersFuel (kv :: kvs') from rfl]
              at hle
            omega
          rfl
    · intro xs rest hne hfe
      cases xs with
      | nil => exact absurd rfl hne
      | cons x xs' =>
        rw [parseElemsF_succ]
        cases xs' with
        | nil =>
          rw [show (dumpsArr [x]).data = (dumps x).data from rfl]
          rw [ihv x (']' :: rest) ?fv ?nd]
          case fv =>
            rw [show elemsFuel [x] = 1 + jsonFuel x from rfl] at hfe
            omega
          case nd =>
            intro c hc
            simp only [List.head?_cons, Option.some.injEq] at hc
            subst hc
            decide
          simp
        | cons y ys =>
          have hda : (dumpsArr (x :: y :: ys)).data
              = (dumps x).data ++ (',' :: (dumpsArr (y :: ys)).data) := by
            show (dumps x ++ "," ++ dumpsArr (y :: ys)).data = _
            rw [String.data_append, String.data_append]
            simp
          rw [hda]
          have hassoc : ((dumps x).data ++ (',' :: (dumpsArr (y :: ys)).data)) ++ (']' :: rest)
              = (dumps x).data ++ (',' :: ((dumpsArr (y :: ys)).data ++ (']' :: rest))) := by
            simp
          rw [hassoc]
          have hmax : jsonFuel x ≤ f ∧ elemsFuel (y :: ys) ≤ f := by
            rw [show elemsFuel (x :: y :: ys)
              = 1 + max (jsonFuel x) (elemsFuel (y :: ys)) from rfl] at hfe
            omega
          rw [ihv x _ hmax.1 ?ndc]
          case ndc =>
            intro c hc
            simp only [List.head?_cons, Option.some.injEq] at hc
            subst hc
            decide
          simp only [Option.bind]
          rw [if_pos trivial]
          rw [ihe (y :: ys) rest (by simp) hmax.2]
          rfl
    · intro kvs rest hne hfm
      cases kvs with
      | nil => exact absurd rfl hne
      | cons kv kvs' =>
        cases kvs' with
        | nil =>
          rw [show (dumpsObj [kv]).data ++ (rbrace :: rest)
              = Char.ofNat 34 :: (jsonEscape kv.1.data
                ++ (Char.ofNat 34 :: (':' :: ((dumps kv.2).data ++ (rbrace :: rest))))) from by
            show ((String.mk (Char.ofNat 34 :: jsonEscape kv.1.data ++ [Char.ofNat 34])
              ++ ":" ++ dumps kv.2).data) ++ (rbrace :: rest) = _
            rw [String.data_append, String.data_append]
            simp]
          rw [parseMembersF_quo]
          rw [parseStrF_escape kv.1.data _ _ ?hl1]
          case hl1 =>
            have := jsonEscape_length kv.1.data
            simp only [List.length_append, List.length_cons]
            omega
          simp only [Option.bind]
          rw [if_pos trivial]
          rw [ihv kv.2 (rbrace :: rest) ?fv1 ?nd1]
          case fv1 =>
            rw [show membersFuel [kv] = 1 + jsonFuel kv.2 from rfl] at hfm
            omega
          case nd1 =>
            intro c hc
            simp only [List.head?_cons, Option.some.injEq] at hc
            subst hc
            decide
          simp
          intro h
          exact absurd h (by decide)
        | cons kv2 kvs2 =>
          rw [show (dumpsObj (kv :: kv2 :: kvs2)).data ++ (rbrace :: rest)
              = Char.ofNat 34 :: (jsonEscape kv.1.data
                ++ (Char.ofNat 34 :: (':' :: ((dumps kv.2).data
                  ++ (',' :: ((dumpsObj (kv2 :: kvs2)).data ++ (rbrace :: rest))))))) from by
            show ((String.mk (Char.ofNat 34 :: jsonEscape kv.1.data ++ [Char.ofNat 34])
              ++ ":" ++ dumps kv.2 ++ "," ++ dumpsObj (kv2 :: kvs2)).data)
                ++ (rbrace :: rest) = _
            rw [String.data_append, String.data_append, String.data_append,
              String.data_append]
            simp]
          rw [parseMembersF_quo]
          rw [parseStrF_escape kv.1.data _ _ ?hl2]
          case hl2 =>
            have := jsonEscape_length kv.1.data
            simp only [List.length_append, List.length_cons]
            omega
          simp only [Option.bind]
          rw [if_pos trivial]
          have hmax : jsonFuel kv.2 ≤ f ∧ membersFuel (kv2 :: kvs2) ≤ f := by
            rw [show membersFuel (kv :: kv2 :: kvs2)
              = 1 + max (jsonFuel kv.2) (membersFuel (kv2 :: kvs2)) from rfl] at hfm
            omega
          rw [ihv kv.2 _ hmax.1 ?nd2]
          case nd2 =>
            intro c hc
            simp only [List.head?_cons, Option.some.injEq] at hc
            subst hc
            decide
          simp only [Option.bind]
          rw [if_pos trivial]
          rw [ihm (kv2 :: kvs2) rest (by simp) hmax.2]
          simp

theorem json_sizeOf_pos (j : Json) : 1 ≤ sizeOf j := by
  cases j <;> simp

/-- Enough fuel: the fuel measure is bounded by the encoding length. -/
theorem fuel_bound (n : Nat) :
    (∀ j : Json, sizeOf j ≤ n → jsonFuel j ≤ (dumps j).data.length + 1) ∧
    (∀ xs : List Json, sizeOf xs ≤ n → xs ≠ [] →
      elemsFuel xs ≤ (dumpsArr xs).data.length + 2) ∧
    (∀ kvs : List (String × Json), sizeOf kvs ≤ n → kvs ≠ [] →
      membersFuel kvs ≤ (dumpsObj kvs).data.length + 2) := by
  induction n with
  | zero =>
    refine ⟨?_, ?_, ?_⟩
    · intro j hsz
      have := json_sizeOf_pos j
      omega
    · intro xs hsz hne
      cases xs with
      | nil => exact absurd rfl hne
      | cons x xs' => simp at hsz
    · intro kvs hsz hne
      cases kvs with
      | nil => exact absurd rfl hne
      | cons kv kvs' => simp at hsz
  | succ n ih =>
    obtain ⟨ihv, ihe, ihm⟩ := ih
    refine ⟨?_, ?_, ?_⟩
    · intro j hsz
      cases j with
      | null => simp [jsonFuel]
      | bool b => cases b <;> simp [jsonFuel]
      | num m => simp [jsonFuel]
      | str s => simp [jsonFuel]
      | arr xs =>
        cases xs with
        | nil => simp [jsonFuel]
        | cons x xs' =>
          have hsz' : sizeOf (x :: xs') ≤ n := by
            simp at hsz
            simp
            omega
          have he := ihe (x :: xs') hsz' (by simp)
          rw [show jsonFuel (Json.arr (x :: xs')) = 1 + elemsFuel (x :: xs') from rfl]
          have hlen : (dumps (Json.arr (x :: xs'))).data.length
              = (dumpsArr (x :: xs')).data.length + 2 := by
            show ("[" ++ dumpsArr (x :: xs') ++ "]").data.length = _
            rw [String.data_append, String.data_append]
            simp
          omega
      | obj kvs =>
        cases kvs with
        | nil => simp [jsonFuel]
        | cons kv kvs' =>
          have hsz' : sizeOf (kv :: kvs') ≤ n := by
            simp at hsz
            simp
            omega
          have hm := ihm (kv :: kvs') hsz' (by simp)
          rw [show jsonFuel (Json.obj (kv :: kvs')) = 1 + membersFuel (kv :: kvs') from rfl]
          have hlen : (dumps (Json.obj (kv :: kvs'))).data.length
              = (dumpsObj (kv :: kvs')).data.length + 2 := by
            show (String.mk [lbrace] ++ dumpsObj (kv :: kvs') ++ String.mk [rbrace]).data.length
              = _
            rw [String.data_append, String.data_append]
            simp
          omega
    · intro xs hsz hne
      cases xs with
      | nil => exact absurd rfl hne
      | cons x xs' =>
        cases xs' with
        | nil =>
          have hvx := ihv x (by simp at hsz; omega)
          rw [show elemsFuel [x] = 1 + jsonFuel x from rfl]
          rw [show (dumpsArr [x]).data = (dumps x).data from rfl]
          omega
        | cons y ys =>
          have hvx := ihv x (by simp at hsz; omega)
          have hey := ihe (y :: ys) (by simp at hsz; simp; omega) (by simp)
          rw [show elemsFuel (x :: y :: ys)
            = 1 + max (jsonFuel x) (elemsFuel (y :: ys)) from rfl]
          have hlen : (dumpsArr (x :: y :: ys)).data.length
              = (dumps x).data.length + 1 + (dumpsArr (y :: ys)).data.length := by
            show (dumps x ++ "," ++ dumpsArr (y :: ys)).data.length = _
            rw [String.data_append, String.data_append]
            simp
            omega
          omega
    · intro kvs hsz hne
      cases kvs with
      | nil => exact absurd rfl hne
      | cons kv kvs' =>
        cases kvs' with
        | nil =>
          have hkv : sizeOf kv.2 < sizeOf kv := by
            obtain ⟨a, b⟩ := kv
            simp
          have hvv := ihv kv.2 (by simp at hsz; omega)
          rw [show membersFuel [kv] = 1 + jsonFuel kv.2 from rfl]
          have hlen : (dumpsObj [kv]).data.length
              = (jsonEscape kv.1.data).length + 3 + (dumps kv.2).data.length := by
            show (String.mk (Char.ofNat 34 :: jsonEscape kv.1.data ++ [Char.ofNat 34])
              ++ ":" ++ dumps kv.2).data.length = _
            rw [String.data_append, String.data_append]
            simp
            omega
          omega
        | cons kv2 kvs2 =>
          have hkv : sizeOf kv.2 < sizeOf kv := by
            obtain ⟨a, b⟩ := kv
            simp
          have hvv := ihv kv.2 (by simp at hsz; omega)
          have hm2 := ihm (kv2 :: kvs2) (by simp at hsz; simp; omega) (by simp)
          rw [show membersFuel (kv :: kv2 :: kvs2)
            = 1 + max (jsonFuel kv.2) (membersFuel (kv2 :: kvs2)) from rfl]
          have hlen : (dumpsObj (kv :: kv2 :: kvs2)).data.length
              = (jsonEscape kv.1.data).length + 4 + (dumps kv.2).data.length
                + (dumpsObj (kv2 :: kvs2)).data.length := by
            show (String.mk (Char.ofNat 34 :: jsonEscape kv.1.data ++ [Char.ofNat 34])
              ++ ":" ++ dumps kv.2 ++ "," ++ dumpsObj (kv2 :: kvs2)).data.length = _
            rw [String.data_append, String.data_append, String.data_append,
              String.data_append]
            simp
            omega
          omega

/-- `json.loads` inverts the compact `json.dumps` on every JSON value:
the encode/decode round trip is lossless. -/
theorem parseJson_dumps (j : Json) : parseJson (dumps j) = some j := by
  have hb := (fuel_bound (sizeOf j)).1 j le_rfl
  have h := (parse_dumps ((dumps j).data.length + 1)).1 j [] hb
    (by intro c hc; simp at hc)
  rw [List.append_nil] at h
  rw [parseJson, h]

/-! ## Mustache substitution: scanner refinement -/

theorem takeName_length {cs : List Char} {nm : String} {r : List Char}
    (h : takeName cs = some (nm, r)) : r.length + 3 ≤ cs.length := by
  rw [takeName] at h
  by_cases he : (cs.takeWhile isNameCh).isEmpty
  · simp [he] at h
  · rw [if_neg he] at h
    cases hd : cs.drop (cs.takeWhile isNameCh).length with
    | nil => rw [hd] at h; simp at h
    | cons c1 tl =>
      cases tl with
      | nil => rw [hd] at h; simp at h
      | cons c2 rest =>
        rw [hd] at h
        dsimp only at h
        by_cases h1 : c1 = rbrace
        · by_cases h2 : c2 = rbrace
          · rw [if_pos h1, if_pos h2] at h
            simp only [Option.some.injEq, Prod.mk.injEq] at h
            obtain ⟨-, hr⟩ := h
            subst hr
            have hlen := congrArg List.length hd
            simp only [List.length_drop, List.length_cons] at hlen
            have hpos : 1 ≤ (cs.takeWhile isNameCh).length := by
              cases hx : cs.takeWhile isNameCh with
              | nil => rw [hx] at he; simp at he
              | cons a b => simp
            have hle : (cs.takeWhile isNameCh).length ≤ cs.length :=
              (List.takeWhile_sublist _).length_le
            omega
          · rw [if_pos h1, if_neg h2] at h
            simp at h
        · rw [if_neg h1] at h
          simp at h

theorem reSubF_renderSegs :
    ∀ (fuel : Nat) (cs : List Char) (kw : List (String × Json)), cs.length ≤ fuel →
      reSubF fuel cs kw = renderSegs (scanSegsF fuel cs) kw := by
  intro fuel
  induction fuel with
  | zero =>
    intro cs kw hle
    have : cs = [] := by
      cases cs with
      | nil => rfl
      | cons a b => simp at hle
    subst this
    rfl
  | succ f ih =>
    intro cs kw hle
    cases cs with
    | nil => rfl
    | cons c1 rest =>
      by_cases hc1 : c1 = lbrace
      · cases rest with
        | nil => simp [reSubF, scanSegsF, renderSegs, hc1]
        | cons c2 rest2 =>
          by_cases hc2 : c2 = lbrace
          · cases htn : takeName rest2 with
            | some nr =>
              have hlen := takeName_length
                (show takeName rest2 = some (nr.1, nr.2) from htn)
              rw [reSubF, if_pos hc1, if_pos hc2, htn]
              rw [scanSegsF, if_pos hc1, if_pos hc2, htn]
              rw [renderSegs]
              dsimp only
              rw [ih nr.2 (dictPop kw nr.1).2 (by simp at hle; omega)]
            | none =>
              rw [reSubF, if_pos hc1, if_pos hc2, htn]
              rw [scanSegsF, if_pos hc1, if_pos hc2, htn]
              rw [renderSegs]
              dsimp only
              rw [ih (c2 :: rest2) kw (by simp at hle; simp; omega)]
          · rw [reSubF, if_pos hc1, if_neg hc2]
            rw [scanSegsF, if_pos hc1, if_neg hc2]
            rw [renderSegs]
            dsimp only
            rw [ih (c2 :: rest2) kw (by simp at hle; simp; omega)]
      · rw [reSubF.eq_def, scanSegsF.eq_def]
        simp only [if_neg hc1]
        rw [renderSegs]
        rw [ih rest kw (by simp at hle; omega)]

theorem hole_mem_holeNames :
    ∀ (ss : List Seg) (n : String), Seg.hole n ∈ ss → n ∈ holeNames ss := by
  intro ss n h
  induction ss with
  | nil => simp at h
  | cons sg ss ih =>
    cases sg with
    | lit c =>
      rw [holeNames]
      rcases List.mem_cons.mp h with h0 | h0
      · exact absurd h0 (by simp)
      · exact ih h0
    | hole m =>
      rw [holeNames]
      rcases List.mem_cons.mp h with h0 | h0
      · simp only [Seg.hole.injEq] at h0
        subst h0
        simp
      · simp [ih h0]

theorem renderSegs_spec :
    ∀ (ss : List Seg) (kw : List (String × Json)),
      (dictKeys kw).Nodup → (holeNames ss).Nodup →
      renderSegs ss kw =
        ((ss.map (fun sg => segRender sg kw)).flatten,
          dictEraseAll (holeNames ss) kw) := by
  intro ss
  induction ss with
  | nil => intro kw _ _; simp [renderSegs, holeNames, dictEraseAll]
  | cons sg ss ih =>
    intro kw hk hh
    cases sg with
    | lit c =>
      rw [renderSegs, ih kw hk (by simpa [holeNames] using hh)]
      simp [holeNames, segRender]
    | hole n =>
      have hh2 : (n :: holeNames ss).Nodup := by simpa [holeNames] using hh
      have hnotin : n ∉ holeNames ss := (List.nodup_cons.mp hh2).1
      have hh' : (holeNames ss).Nodup := (List.nodup_cons.mp hh2).2
      rw [renderSegs]
      rw [show (dictPop kw n).2 = dictErase kw n from rfl]
      rw [ih (dictErase kw n) (dictKeys_nodup_dictErase kw n hk) hh']
      have hmap : ss.map (fun sg => segRender sg (dictErase kw n))
          = ss.map (fun sg => segRender sg kw) := by
        apply List.map_congr_left
        intro sg hsg
        cases sg with
        | lit c => rfl
        | hole m =>
          have hm : m ∈ holeNames ss := hole_mem_holeNames ss m hsg
          have hmn : ¬n = m := fun he => hnotin (he ▸ hm)
          simp [segRender, dictLookup_dictErase_ne kw n m hmn]
      rw [hmap]
      rw [show (dictPop kw n).1 = dictLookup kw n from rfl]
      rw [show holeNames (Seg.hole n :: ss) = n :: holeNames ss from rfl]
      rw [show dictEraseAll (n :: holeNames ss) kw
        = dictEraseAll (holeNames ss) (dictErase kw n) from rfl]
      simp only [List.map_cons, List.flatten_cons, Prod.mk.injEq, and_true]
      simp only [segRender]
      cases dictLookup kw n <;> simp

theorem dictEraseAll_sublist {α : Type} :
    ∀ (ks : List String) (d : List (String × α)), (dictEraseAll ks d).Sublist d := by
  intro ks
  induction ks with
  | nil => intro d; simp [dictEraseAll]
  | cons k ks ih =>
    intro d
    rw [dictEraseAll]
    exact (ih (dictErase d k)).trans (dictErase_sublist d k)

theorem dictLookup_dictEraseAll_of_mem {α : Type} :
    ∀ (ks : List String) (d : List (String × α)) (n : String),
      (dictKeys d).Nodup → n ∈ ks → dictLookup (dictEraseAll ks d) n = none := by
  intro ks
  induction ks with
  | nil => intro d n _ h; simp at h
  | cons k ks ih =>
    intro d n hnd hmem
    rw [dictEraseAll]
    rcases List.mem_cons.mp hmem with h0 | h0
    · subst h0
      exact dictLookup_none_of_sublist (dictEraseAll_sublist ks _)
        (dictLookup_dictErase_self d n hnd)
    · exact ih (dictErase d k) n (dictKeys_nodup_dictErase d k hnd) h0

theorem reSubF_sublist :
    ∀ (fuel : Nat) (cs : List Char) (kw : List (String × Json)),
      ((reSubF fuel cs kw).2).Sublist kw := by
  intro fuel
  induction fuel with
  | zero => intro cs kw; simp [reSubF]
  | succ f ih =>
    intro cs kw
    cases cs with
    | nil => simp [reSubF]
    | cons c1 rest =>
      by_cases hc1 : c1 = lbrace
      · cases rest with
        | nil => simp [reSubF, hc1]
        | cons c2 rest2 =>
          by_cases hc2 : c2 = lbrace
          · cases htn : takeName rest2 with
            | some nr =>
              rw [reSubF, if_pos hc1, if_pos hc2, htn]
              exact (ih nr.2 (dictPop kw nr.1).2).trans (dictErase_sublist kw nr.1)
            | none =>
              rw [reSubF, if_pos hc1, if_pos hc2, htn]
              exact ih (c2 :: rest2) kw
          · rw [reSubF, if_pos hc1, if_neg hc2]
            exact ih (c2 :: rest2) kw
      · rw [reSubF.eq_def]
        simp only [if_neg hc1]
        exact (ih rest kw).trans (List.Sublist.refl kw)

/-! ## Pipeline lemmas -/

theorem dictLookup_encodePostData_ne (pd : PostData) (qp : List (String × String))
    (k : String) (hk : ¬("data" : String) = k) :
    dictLookup (encodePostData pd qp) k = dictLookup qp k := by
  rw [encodePostData]
  cases pd.job with
  | some j => exact dictLookup_dictSet_ne qp "data" k (dumps j) hk
  | none =>
    cases pd.jobs with
    | some j => exact dictLookup_dictSet_ne qp "data" k (dumps j) hk
    | none =>
      cases pd.comment with
      | some j => exact dictLookup_dictSet_ne qp "data" k (dumps j) hk
      | none =>
        cases pd.action with
        | some j => exact dictLookup_dictSet_ne qp "data" k (dumps j) hk
        | none => rfl

theorem extractPostData_lookup_ne (kwargs : List (String × Json)) (k : String)
    (h1 : ¬("job" : String) = k) (h2 : ¬("jobs" : String) = k)
    (h3 : ¬("comment" : String) = k) (h4 : ¬("action" : String) = k)
    (h5 : ¬("job_ids" : String) = k) :
    dictLookup (extractPostData kwargs).2 k = dictLookup kwargs k := by
  rw [extractPostData]
  simp only [dictPop]
  rw [dictLookup_dictErase_ne _ _ _ h5, dictLookup_dictErase_ne _ _ _ h4,
    dictLookup_dictErase_ne _ _ _ h3, dictLookup_dictErase_ne _ _ _ h2,
    dictLookup_dictErase_ne _ _ _ h1]

theorem extractPostData_sublist (kwargs : List (String × Json)) :
    ((extractPostData kwargs).2).Sublist kwargs := by
  rw [extractPostData]
  simp only [dictPop]
  exact ((((dictErase_sublist _ "job_ids").trans
    (dictErase_sublist _ "action")).trans
    (dictErase_sublist _ "comment")).trans
    (dictErase_sublist _ "jobs")).trans
    (dictErase_sublist _ "job")

theorem buildQueryParams_ok :
    ∀ (kw : List (String × Json)), (∀ p ∈ kw, ∃ s, p.2 = Json.str s) →
      ∃ qp, buildQueryParams kw = .ok qp := by
  intro kw
  induction kw with
  | nil => intro _; exact ⟨[], rfl⟩
  | cons p rest ih =>
    intro h
    obtain ⟨k, v⟩ := p
    obtain ⟨s, hs⟩ := h (k, v) (by simp)
    obtain ⟨qp, hqp⟩ := ih (fun q hq => h q (by simp [hq]))
    simp only at hs
    subst hs
    exact ⟨(k, pyQuote s) :: qp, by rw [buildQueryParams, encodeParamVal, hqp]⟩

/-! ## Claims -/

/-- C3: invoking a logical operation name that is not in the endpoint
registry fails with `AttributeError` before any request is constructed,
signed or sent: the call issues zero requests, prints nothing, and
errors. -/
theorem claim_C3_unsupported_operation (cfg : MyGengoConfig) (name : String)
    (kwargs : List (String × Json)) (ts : Nat) (transport : HttpRequest → Json)
    (h : dictLookup apihash name = none) :
    invoke cfg name kwargs ts transport = ([], [], .error .attributeError) := by
  rw [invoke.eq_def, h]

theorem claim_C3_witness :
    invoke {} "bogusOperation" [] 0 (fun _ => Json.null)
      = ([], [], .error .attributeError) :=
  claim_C3_unsupported_operation {} "bogusOperation" [] 0 (fun _ => Json.null) rfl

/-- C10: a call whose arguments include the key `ids` raises `NameError`
(the code references the undefined variable `ids`, source line 140)
before any request is constructed or sent: zero requests issued and no
output. -/
theorem claim_C10_ids_name_error (cfg : MyGengoConfig) (name : String) (fn : Endpoint)
    (kwargs : List (String × Json)) (ts : Nat) (transport : HttpRequest → Json)
    (hfn : dictLookup apihash name = some fn)
    (hids : (dictLookup kwargs "ids").isSome) :
    invoke cfg name kwargs ts transport = ([], [], .error (.nameError "ids")) := by
  rw [invoke.eq_def, hfn]
  dsimp only
  rw [if_pos (by
    rw [extractPostData_lookup_ne kwargs "ids" (by decide) (by decide) (by decide)
      (by decide) (by decide)]
    exact hids)]

theorem claim_C10_witness :
    invoke {} "getTranslationJobs" [("ids", Json.arr [Json.num 1, Json.num 2])] 0
        (fun _ => Json.null)
      = ([], [], .error (.nameError "ids")) :=
  claim_C10_ids_name_error {} "getTranslationJobs"
    { url := "/translate/jobs", method := "GET" }
    [("ids", Json.arr [Json.num 1, Json.num 2])] 0 (fun _ => Json.null) rfl rfl

/-- C9 (counterexample): an upload-endpoint call without a `jobs`
argument need not raise the missing-`jobs` lookup error — with an `ids`
argument present it raises `NameError` first, which is not a lookup
error. -/
theorem claim_C9_counterexample :
    invoke { private_key := some "secret" } "determineTranslationCost"
        [("ids", Json.arr [Json.num 1])] 0 (fun _ => Json.null)
      = ([], [], .error (.nameError "ids"))
    ∧ PyErr.nameError "ids" ≠ PyErr.keyError "jobs" := by
  refine ⟨rfl, ?_⟩
  intro h
  exact PyErr.noConfusion h

/-- C9 (amended): a call to the upload-capable endpoint
`determineTranslationCost` whose arguments contain no `jobs` payload, no
`ids` key, and only string-valued remaining arguments, raises
`KeyError('jobs')` while handling files, before any HTTP request is
issued (zero requests, no output). -/
theorem claim_C9_upload_missing_jobs (cfg : MyGengoConfig)
    (kwargs : List (String × Json)) (ts : Nat) (transport : HttpRequest → Json)
    (hjobs : dictLookup kwargs "jobs" = none)
    (hids : dictLookup kwargs "ids" = none)
    (hstr : ∀ p ∈ kwargs, ∃ s, p.2 = Json.str s) :
    invoke cfg "determineTranslationCost" kwargs ts transport
      = ([], [], .error (.keyError "jobs")) := by
  rw [invoke.eq_def]
  rw [show dictLookup apihash "determineTranslationCost"
    = some { url := "/translate/service/quote", method := "POST", upload := true }
    from rfl]
  dsimp only
  rw [if_neg (by
    rw [extractPostData_lookup_ne kwargs "ids" (by decide) (by decide) (by decide)
      (by decide) (by decide), hids]
    simp)]
  have hsub : ((reSub (pyReplace cfg.api_url verTok ("v" ++ cfg.api_version) ++
      "/translate/service/quote").data (extractPostData kwargs).2).2).Sublist kwargs :=
    (reSubF_sublist _ _ _).trans (extractPostData_sublist kwargs)
  obtain ⟨qp, hqp⟩ := buildQueryParams_ok _ (fun p hp => hstr p (hsub.mem hp))
  rw [hqp]
  dsimp only
  have hpj : (extractPostData kwargs).1.jobs = none := by
    rw [extractPostData]
    simp only [dictPop]
    rw [dictLookup_dictErase_ne _ _ _ (by decide), hjobs]
  rw [show uploadStep
      { url := "/translate/service/quote", method := "POST", upload := true }
      (extractPostData kwargs).1
    = Except.error (.keyError "jobs") from by
      rw [uploadStep, if_pos rfl, hpj]]

theorem claim_C9_upload_missing_jobs_witness :
    invoke {} "determineTranslationCost" [] 0 (fun _ => Json.null)
      = ([], [], .error (.keyError "jobs")) :=
  claim_C9_upload_missing_jobs {} [] 0 (fun _ => Json.null) rfl rfl
    (fun p hp => absurd hp (by simp))

/-- C6: when several payload-carrying arguments are supplied, exactly one
is JSON-encoded into the `data` field of the form body, chosen by the
fixed priority order `job`, then `jobs`, then `comment`, then `action`
(`specPriorityPayload`). -/
theorem claim_C6_payload_priority (pd : PostData) (qp : List (String × String))
    (j : Json) (h : specPriorityPayload pd = some j) :
    encodePostData pd qp = dictSet qp "data" (dumps j) := by
  rw [specPriorityPayload] at h
  rw [encodePostData]
  cases hj : pd.job with
  | some j0 =>
    rw [hj] at h
    simp only [Option.some_orElse] at h
    cases h
    rfl
  | none =>
    rw [hj] at h
    simp only [Option.none_orElse] at h
    cases hjs : pd.jobs with
    | some j0 =>
      rw [hjs] at h
      simp only [Option.some_orElse] at h
      cases h
      rfl
    | none =>
      rw [hjs] at h
      simp only [Option.none_orElse] at h
      cases hc : pd.comment with
      | some j0 =>
        rw [hc] at h
        simp only [Option.some_orElse] at h
        cases h
        rfl
      | none =>
        rw [hc] at h
        simp only [Option.none_orElse] at h
        cases ha : pd.action with
        | some j0 =>
          rw [ha] at h
          cases h
          rfl
        | none =>
          rw [ha] at h
          cases h

theorem claim_C6_payload_priority_witness :
    encodePostData
        { job := some (Json.obj [("job", Json.str "J")]),
          comment := some (Json.str "C"), action := some (Json.str "A") }
        [("ts", "7")]
      = dictSet [("ts", "7")] "data" (dumps (Json.obj [("job", Json.str "J")])) :=
  claim_C6_payload_priority
    { job := some (Json.obj [("job", Json.str "J")]),
      comment := some (Json.str "C"), action := some (Json.str "A") }
    [("ts", "7")] (Json.obj [("job", Json.str "J")]) rfl

/-- C5: a call supplying `job = J` wraps it as `{"job": J}`, the form
body's `data` field is its compact JSON encoding (surviving the later
`api_sig` insertion), and decoding that encoding gives back exactly
`{"job": J}` — the encode/decode round trip is lossless. -/
theorem claim_C5_job_data_roundtrip (J : Json) (kwargs : List (String × Json))
    (qp : List (String × String)) (sig : String)
    (hJ : dictLookup kwargs "job" = some J) :
    (extractPostData kwargs).1.job = some (Json.obj [("job", J)])
    ∧ dictLookup (encodePostData (extractPostData kwargs).1 qp) "data"
        = some (dumps (Json.obj [("job", J)]))
    ∧ dictLookup
        (dictSet (encodePostData (extractPostData kwargs).1 qp) "api_sig" sig) "data"
        = some (dumps (Json.obj [("job", J)]))
    ∧ parseJson (dumps (Json.obj [("job", J)])) = some (Json.obj [("job", J)]) := by
  have h1 : (extractPostData kwargs).1.job = some (Json.obj [("job", J)]) := by
    rw [extractPostData]
    simp only [dictPop]
    rw [hJ]
    rfl
  have h2 : dictLookup (encodePostData (extractPostData kwargs).1 qp) "data"
      = some (dumps (Json.obj [("job", J)])) := by
    rw [encodePostData, h1]
    exact dictLookup_dictSet_self qp "data" _
  refine ⟨h1, h2, ?_, parseJson_dumps _⟩
  rw [dictLookup_dictSet_ne _ "api_sig" "data" sig (by decide)]
  exact h2

theorem claim_C5_job_data_roundtrip_witness :
    (extractPostData [("job", Json.obj [("type", Json.str "text"),
        ("body_src", Json.str "hi")])]).1.job
      = some (Json.obj [("job", Json.obj [("type", Json.str "text"),
          ("body_src", Json.str "hi")])])
    ∧ dictLookup (encodePostData (extractPostData [("job",
        Json.obj [("type", Json.str "text"), ("body_src", Json.str "hi")])]).1
          [("ts", "7")]) "data"
      = some (dumps (Json.obj [("job", Json.obj [("type", Json.str "text"),
          ("body_src", Json.str "hi")])]))
    ∧ dictLookup (dictSet (encodePostData (extractPostData [("job",
        Json.obj [("type", Json.str "text"), ("body_src", Json.str "hi")])]).1
          [("ts", "7")]) "api_sig" "s") "data"
      = some (dumps (Json.obj [("job", Json.obj [("type", Json.str "text"),
          ("body_src", Json.str "hi")])]))
    ∧ parseJson (dumps (Json.obj [("job", Json.obj [("type", Json.str "text"),
        ("body_src", Json.str "hi")])]))
      = some (Json.obj [("job", Json.obj [("type", Json.str "text"),
          ("body_src", Json.str "hi")])]) :=
  claim_C5_job_data_roundtrip
    (Json.obj [("type", Json.str "text"), ("body_src", Json.str "hi")])
    [("job", Json.obj [("type", Json.str "text"), ("body_src", Json.str "hi")])]
    [("ts", "7")] "s" rfl

/-- C2: mustache substitution resolves every `{{name}}`
placeholder of the template independently — a supplied same-named
argument's stringified value is inserted in the placeholder's position,
the literal `no_argument_specified` marker when none is supplied
(`segRender`) — and the substituted names are consumed: the argument
dictionary handed on to signing/encoding is the original minus the
placeholder names, in which every placeholder name looks up to nothing. -/
theorem claim_C2_placeholder_substitution (t : String) (kw : List (String × Json))
    (hk : (dictKeys kw).Nodup) (hh : (holeNames (scanSegs t.data)).Nodup) :
    reSub t.data kw
      = (((scanSegs t.data).map (fun sg => segRender sg kw)).flatten,
          dictEraseAll (holeNames (scanSegs t.data)) kw)
    ∧ ∀ n, n ∈ holeNames (scanSegs t.data) →
        dictLookup (reSub t.data kw).2 n = none := by
  have hA := reSubF_renderSegs t.data.length t.data kw le_rfl
  have hB := renderSegs_spec (scanSegsF t.data.length t.data) kw hk hh
  constructor
  · rw [reSub, hA]
    exact hB
  · intro n hn
    rw [reSub, hA, hB]
    exact dictLookup_dictEraseAll_of_mem _ kw n hk hn

theorem claim_C2_placeholder_substitution_witness :
    reSub "/translate/job/\x7b\x7bid\x7d\x7d".data [("id", Json.str "42")]
      = (((scanSegs "/translate/job/\x7b\x7bid\x7d\x7d".data).map
            (fun sg => segRender sg [("id", Json.str "42")])).flatten,
          dictEraseAll (holeNames (scanSegs "/translate/job/\x7b\x7bid\x7d\x7d".data))
            [("id", Json.str "42")])
    ∧ ∀ n, n ∈ holeNames (scanSegs "/translate/job/\x7b\x7bid\x7d\x7d".data) →
        dictLookup (reSub "/translate/job/\x7b\x7bid\x7d\x7d".data
          [("id", Json.str "42")]).2 n = none :=
  claim_C2_placeholder_substitution "/translate/job/\x7b\x7bid\x7d\x7d"
    [("id", Json.str "42")] (by decide) (by decide)

theorem invoke_getAccountStats (pub priv : Option String)
    (hdrs : List (String × String)) (dbg : Bool) (T : Nat) (r : Json) :
    (invoke { public_key := pub, private_key := priv, headers := hdrs, debug := dbg }
        "getAccountStats" [] T (fun _ => r)).2.2 = checkOpstat r := by
  cases pub <;> cases priv <;> cases dbg <;> rfl

theorem checkOpstat_error (flds eflds : List (String × Json)) (ov m c : Json)
    (hop : dictLookup flds "opstat" = some ov)
    (hnotok : jsonEqStr ov "ok" = false)
    (herr : dictLookup flds "err" = some (Json.obj eflds))
    (hmsg : dictLookup eflds "msg" = some m)
    (hcode : dictLookup eflds "code" = some c) :
    checkOpstat (Json.obj flds) = .error (raiseMyGengoError m (some c)) := by
  rw [checkOpstat]
  rw [show pyIn "opstat" (Json.obj flds) = .ok (dictLookup flds "opstat").isSome
    from rfl]
  dsimp only
  rw [hop]
  simp only [Option.isSome_some, if_true]
  rw [show jsonIndex (Json.obj flds) "opstat" = .ok ov from by rw [jsonIndex, hop]]
  dsimp only
  rw [hnotok]
  simp only [Bool.false_eq_true, if_false]
  rw [show jsonIndex (Json.obj flds) "err" = .ok (Json.obj eflds) from by
    rw [jsonIndex, herr]]
  dsimp only
  rw [show jsonIndex (Json.obj eflds) "msg" = .ok m from by rw [jsonIndex, hmsg]]
  dsimp only
  rw [show jsonIndex (Json.obj eflds) "code" = .ok c from by rw [jsonIndex, hcode]]

theorem checkOpstat_ok (flds : List (String × Json))
    (hop : dictLookup flds "opstat" = some (Json.str "ok")) :
    checkOpstat (Json.obj flds) = .ok (Json.obj flds) := by
  rw [checkOpstat]
  rw [show pyIn "opstat" (Json.obj flds) = .ok (dictLookup flds "opstat").isSome
    from rfl]
  dsimp only
  rw [hop]
  simp only [Option.isSome_some, if_true]
  rw [show jsonIndex (Json.obj flds) "opstat" = .ok (Json.str "ok") from by
    rw [jsonIndex, hop]]
  dsimp only
  rw [show jsonEqStr (Json.str "ok") "ok" = true from rfl]
  simp only [if_true]

/-- C4: decoding a response whose top-level `opstat` is present and
different from `"ok"` makes the call fail with `MyGengoError` carrying
`err.msg` and `err.code` (`raiseMyGengoError`), and an `err.code` of
1000 surfaces as the distinguished `MyGengoAuthError`; a response with
`opstat = "ok"` is returned unchanged with no error. -/
theorem claim_C4_opstat_errors (pub priv : Option String)
    (hdrs : List (String × String)) (dbg : Bool) (T : Nat)
    (flds : List (String × Json)) :
    (∀ (ov : Json) (eflds : List (String × Json)) (m c : Json),
      dictLookup flds "opstat" = some ov → jsonEqStr ov "ok" = false →
      dictLookup flds "err" = some (Json.obj eflds) →
      dictLookup eflds "msg" = some m → dictLookup eflds "code" = some c →
      (invoke { public_key := pub, private_key := priv, headers := hdrs, debug := dbg }
          "getAccountStats" [] T (fun _ => Json.obj flds)).2.2
        = .error (raiseMyGengoError m (some c))
      ∧ (c = Json.num 1000 →
        (invoke { public_key := pub, private_key := priv, headers := hdrs, debug := dbg }
            "getAccountStats" [] T (fun _ => Json.obj flds)).2.2
          = .error (.gengoAuthError m)))
    ∧ (dictLookup flds "opstat" = some (Json.str "ok") →
      (invoke { public_key := pub, private_key := priv, headers := hdrs, debug := dbg }
          "getAccountStats" [] T (fun _ => Json.obj flds)).2.2
        = .ok (Json.obj flds)) := by
  constructor
  · intro ov eflds m c hop hnotok herr hmsg hcode
    have he : (invoke { public_key := pub, private_key := priv, headers := hdrs, debug := dbg }
        "getAccountStats" [] T (fun _ => Json.obj flds)).2.2
        = .error (raiseMyGengoError m (some c)) := by
      rw [invoke_getAccountStats]
      exact checkOpstat_error flds eflds ov m c hop hnotok herr hmsg hcode
    refine ⟨he, fun hc => ?_⟩
    subst hc
    rw [he]
    rw [show raiseMyGengoError m (some (Json.num 1000)) = .gengoAuthError m from by
      rw [raiseMyGengoError]
      simp]
  · intro hop
    rw [invoke_getAccountStats]
    exact checkOpstat_ok flds hop

theorem claim_C4_opstat_errors_witness :
    (invoke ({} : MyGengoConfig) "getAccountStats" [] 0
        (fun _ => Json.obj [("opstat", Json.str "error"),
          ("err", Json.obj [("msg", Json.str "bad sig"),
            ("code", Json.num 1000)])])).2.2
      = .error (.gengoAuthError (Json.str "bad sig")) :=
  ((claim_C4_opstat_errors none none [] false 0
      [("opstat", Json.str "error"),
        ("err", Json.obj [("msg", Json.str "bad sig"), ("code", Json.num 1000)])]).1
    (Json.str "error")
    [("msg", Json.str "bad sig"), ("code", Json.num 1000)]
    (Json.str "bad sig") (Json.num 1000) rfl rfl rfl rfl rfl).2 rfl

theorem signAndRequest_api_sig (cfg : MyGengoConfig) (fn : Endpoint) (base : String)
    (qp : List (String × String)) (pd : PostData)
    (fd : Option (List (String × String))) (r : HttpRequest) (dbg : List String)
    (priv : String) (tsv : String)
    (hpriv : cfg.private_key = some priv)
    (hts : dictLookup qp "ts" = some tsv)
    (hok : signAndRequestAPILatest cfg fn base qp pd fd = .ok (r, dbg)) :
    dictLookup r.params "api_sig" = some (hmacSha1Hex priv tsv) := by
  rw [signAndRequestAPILatest] at hok
  by_cases hm : fn.method = "POST" ∨ fn.method = "PUT"
  · rw [if_pos hm] at hok
    rw [hpriv] at hok
    dsimp only at hok
    rw [show dictLookupE (encodePostData pd qp) "ts" = .ok tsv from by
      rw [dictLookupE, dictLookup_encodePostData_ne pd qp "ts" (by decide), hts]] at hok
    dsimp only at hok
    by_cases hdbg : cfg.debug = true
    · rw [if_pos hdbg] at hok
      simp at hok
    · rw [if_neg hdbg] at hok
      cases hfd : fd with
      | some l =>
        rw [hfd] at hok
        dsimp only at hok
        by_cases hl : l.isEmpty
        · rw [if_pos hl] at hok
          simp only [Except.ok.injEq, Prod.mk.injEq] at hok
          obtain ⟨hr, -⟩ := hok
          subst hr
          exact dictLookup_dictSet_self _ "api_sig" _
        · rw [if_neg hl] at hok
          simp only [Except.ok.injEq, Prod.mk.injEq] at hok
          obtain ⟨hr, -⟩ := hok
          subst hr
          exact dictLookup_dictSet_self _ "api_sig" _
      | none =>
        rw [hfd] at hok
        dsimp only at hok
        simp only [Except.ok.injEq, Prod.mk.injEq] at hok
        obtain ⟨hr, -⟩ := hok
        subst hr
        exact dictLookup_dictSet_self _ "api_sig" _
  · rw [if_neg hm] at hok
    dsimp only at hok
    rw [hpriv] at hok
    dsimp only at hok
    rw [show dictLookupE qp "ts" = .ok tsv from by rw [dictLookupE, hts]] at hok
    dsimp only at hok
    simp only [Except.ok.injEq, Prod.mk.injEq] at hok
    obtain ⟨hr, -⟩ := hok
    subst hr
    exact dictLookup_dictSet_self _ "api_sig" _

/-- C1: every request the pipeline actually issues under a configured
private key carries `api_sig` equal to the lowercase hex HMAC-SHA1 of the
decimal timestamp string keyed by the private key — for every operation
name, argument set and transport, so the signature is independent of all
other call arguments and their order. -/
theorem claim_C1_api_sig (cfg : MyGengoConfig) (priv : String) (name : String)
    (kwargs : List (String × Json)) (T : Nat) (transport : HttpRequest → Json)
    (req : HttpRequest)
    (hpriv : cfg.private_key = some priv)
    (hreq : req ∈ (invoke cfg name kwargs T transport).1) :
    dictLookup req.params "api_sig" = some (hmacSha1Hex priv (natRepr T)) := by
  rw [invoke.eq_def] at hreq
  split at hreq
  · simp at hreq
  · rename_i fn hfn
    by_cases hids : (dictLookup (extractPostData kwargs).2 "ids").isSome = true
    · rw [if_pos hids] at hreq
      simp at hreq
    · rw [if_neg hids] at hreq
      cases hpk : cfg.public_key with
      | some pk =>
        rw [hpk] at hreq
        dsimp only at hreq
        split at hreq
        · simp at hreq
        · split at hreq
          · simp at hreq
          · split at hreq
            · simp at hreq
            · rename_i rq hsg
              simp only [List.mem_singleton] at hreq
              subst hreq
              exact signAndRequest_api_sig cfg fn _ _ _ _ rq.1 rq.2 priv
                (natRepr T) hpriv (dictLookup_dictSet_self _ "ts" _) hsg
      | none =>
        rw [hpk] at hreq
        dsimp only at hreq
        split at hreq
        · simp at hreq
        · split at hreq
          · simp at hreq
          · split at hreq
            · simp at hreq
            · rename_i rq hsg
              simp only [List.mem_singleton] at hreq
              subst hreq
              exact signAndRequest_api_sig cfg fn _ _ _ _ rq.1 rq.2 priv
                (natRepr T) hpriv (dictLookup_dictSet_self _ "ts" _) hsg

theorem claim_C1_api_sig_witness :
    dictLookup
        (((invoke { private_key := some "secret" } "getAccountStats" [] 7
            (fun _ => Json.null)).1.headD
          { method := "", url := "", headers := [], params := [], files := [] }).params)
        "api_sig"
      = some (hmacSha1Hex "secret" (natRepr 7)) :=
  claim_C1_api_sig { private_key := some "secret" } "secret" "getAccountStats" [] 7
    (fun _ => Json.null) _ rfl (by decide)

/-- C8: with debug mode enabled, a POST call does not emit a diagnostic
and proceed — it raises `NameError` at the debug print (the undefined
name `query_data`, source line 230) and sends nothing, unlike the same
call with debug disabled, which issues exactly one request and succeeds;
on a GET call debug mode behaves as the claim states: the issued request
and the result are identical with and without debug, and debug only adds
the printed URL line. -/
theorem claim_C8_debug_post_name_error :
    (invoke { private_key := some "secret", debug := true } "postTranslationJob"
        [("job", Json.obj [("type", Json.str "text")])] 7
        (fun _ => Json.obj [("opstat", Json.str "ok")])
      = ([], [], .error (.nameError "query_data")))
    ∧ ((invoke { private_key := some "secret", debug := false } "postTranslationJob"
        [("job", Json.obj [("type", Json.str "text")])] 7
        (fun _ => Json.obj [("opstat", Json.str "ok")])).1.length = 1)
    ∧ ((invoke { private_key := some "secret", debug := false } "postTranslationJob"
        [("job", Json.obj [("type", Json.str "text")])] 7
        (fun _ => Json.obj [("opstat", Json.str "ok")])).2.2
      = .ok (Json.obj [("opstat", Json.str "ok")]))
    ∧ ((invoke { private_key := some "secret", debug := true } "getAccountStats" [] 7
          (fun _ => Json.obj [("opstat", Json.str "ok")])).1
        = (invoke { private_key := some "secret", debug := false } "getAccountStats" [] 7
          (fun _ => Json.obj [("opstat", Json.str "ok")])).1)
    ∧ ((invoke { private_key := some "secret", debug := true } "getAccountStats" [] 7
          (fun _ => Json.obj [("opstat", Json.str "ok")])).2.2
        = (invoke { private_key := some "secret", debug := false } "getAccountStats" [] 7
          (fun _ => Json.obj [("opstat", Json.str "ok")])).2.2)
    ∧ ((invoke { private_key := some "secret", debug := false } "getAccountStats" [] 7
        (fun _ => Json.obj [("opstat", Json.str "ok")])).2.1 = [])
    ∧ ((invoke { private_key := some "secret", debug := true } "getAccountStats" [] 7
        (fun _ => Json.obj [("opstat", Json.str "ok")])).2.1.length = 1) := by
  exact ⟨rfl, rfl, rfl, rfl, rfl, rfl, rfl⟩

end MyGengo
